import Mathlib

/-!
Verification of the dengue-dashboard data pipeline (dengue-dashboard-goias).

The development shallowly embeds the tabular pipeline of the repository:
`process_dengue_data`, the latest-per-municipality aggregation, the alert
level mappings, the paginated fetchers, the response normalizer and the
consolidated state-wide fetch.  A pandas `DataFrame` is modelled as a list
of column names together with a list of rows (positional lists of cell
values); a cell value (`Val`) is either missing (`NaN`/`NaT`), a number,
a raw string, or a parsed date (encoded as an integer that increases with
the date).  `sort_values` is modelled as a stable insertion sort on rows.
-/


/-- A pandas cell value: missing (`NaN`/`NaT`), numeric, raw string, or a
parsed datetime (an integer ordinal, monotone in the date). -/
inductive Val where
  | na : Val
  | num : Int → Val
  | str : String → Val
  | date : Int → Val
deriving DecidableEq, Repr

/-- Rank used to compare cells of different kinds.  Missing values rank
last, mirroring pandas' `na_position='last'` in ascending sorts. -/
def valRank : Val → Nat
  | .num _ => 0
  | .str _ => 1
  | .date _ => 2
  | .na => 3

/-- Total comparison on cell values: same-kind cells compare by their
payload, different kinds by `valRank` (missing values sort last, as in
pandas ascending sorts). -/
def valLe (a b : Val) : Bool :=
  match a, b with
  | .num x, .num y => decide (x ≤ y)
  | .str x, .str y => decide (x ≤ y)
  | .date x, .date y => decide (x ≤ y)
  | a, b => decide (valRank a ≤ valRank b)

/-- A pandas `DataFrame`: a list of column names and a list of rows, each
row a positional list of cell values. -/
structure Table where
  cols : List String
  rows : List (List Val)
deriving DecidableEq, Repr

/-- The empty `DataFrame` (`pd.DataFrame()`). -/
def emptyTable : Table := ⟨[], []⟩

/-- Value of column `c` in a row (missing columns read as `NaN`). -/
def getCol (cols : List String) (row : List Val) (c : String) : Val :=
  match (cols.zip row).find? (fun p => p.1 == c) with
  | some p => p.2
  | none => Val.na

/-- Row comparison used by `sort_values(c)`: compare the cells of column
`c`. -/
def rowLe (cols : List String) (c : String) (r s : List Val) : Bool :=
  valLe (getCol cols r c) (getCol cols s c)

/-! Stable insertion sort, the model of `DataFrame.sort_values`. -/

/-- Insert `a` into `l`, before the first element `b` with `le a b`. -/
def insRow (le : α → α → Bool) (a : α) : List α → List α
  | [] => [a]
  | b :: l => if le a b then a :: b :: l else b :: insRow le a l

/-- Stable insertion sort by the comparison `le`. -/
def insSort (le : α → α → Bool) : List α → List α
  | [] => []
  | a :: l => insRow le a (insSort le l)

/-- Sortedness with respect to a boolean comparison. -/
def SortedBy (le : α → α → Bool) (l : List α) : Prop :=
  l.Pairwise (fun a b => le a b = true)

/-- Model of `df.groupby(key).tail(1)` applied to a dataframe in its
current row order: for every non-missing key value keep the last row
bearing that key, preserving row order (pandas `groupby` drops rows whose
group key is missing, and `GroupBy.tail` preserves the frame's order). -/
def groupTail1 (key : α → Val) : List α → List α
  | [] => []
  | r :: rs =>
    if key r = Val.na then groupTail1 key rs
    else if rs.any (fun s => key s == key r) then groupTail1 key rs
    else r :: groupTail1 key rs

/-! The latest-per-municipality aggregation of the dashboards. -/

/-- The week-date column used by `app_simple.py`:
`date_col = 'data_iniSE' if 'data_iniSE' in df.columns else 'data_ini_SE'`. -/
def dateColOf (t : Table) : String :=
  if t.cols.contains "data_iniSE" then "data_iniSE" else "data_ini_SE"

/-- The municipality identifier column used by `app_simple.py`:
`geocode_col = 'municipio_geocodigo' if 'municipio_geocodigo' in df.columns
else 'geocode'`. -/
def geocodeColOf (t : Table) : String :=
  if t.cols.contains "municipio_geocodigo" then "municipio_geocodigo"
  else "geocode"

/-- Rows of `df.sort_values(c)`: stable sort of the rows by column `c`. -/
def sortValuesRows (t : Table) (c : String) : List (List Val) :=
  insSort (rowLe t.cols c) t.rows

/-- The snapshot `df_latest` computed by `create_alert_distribution` /
`create_municipalities_table` / the state view of `app_simple.py` (and,
with the fixed column names, by `create_metrics_summary` and
`create_alert_level_distribution` of `app.py`):
`df.sort_values(date_col).groupby(geocode_col).tail(1)` when the geocode
column exists, else the fallback
`df.sort_values(date_col).tail(len(df.drop_duplicates(subset=['municipio_nome'])))`.
`none` models the `KeyError` raised (and caught by the callers) when the
columns the code indexes are absent. -/
def latestSnapshot (t : Table) : Option (List (List Val)) :=
  if t.cols.contains (dateColOf t) = false then none
  else
    let sorted := sortValuesRows t (dateColOf t)
    if t.cols.contains (geocodeColOf t) then
      some (groupTail1 (fun r => getCol t.cols r (geocodeColOf t)) sorted)
    else if t.cols.contains "municipio_nome" then
      some (sorted.drop (sorted.length -
        (t.rows.map (fun r => getCol t.cols r "municipio_nome")).dedup.length))
    else none

/-! The data processor `process_dengue_data`. -/

/-- The numeric columns coerced by `process_dengue_data` in `app.py`. -/
def numericColsApp : List String :=
  ["casos_est", "casos_est_min", "casos_est_max", "casos",
   "p_rt1", "p_inc100k", "Rt", "pop", "receptivo", "transmissao",
   "umidmax", "umidmed", "umidmin", "tempmax", "tempmed", "tempmin",
   "casprov", "casprov_est", "casprov_est_min", "casprov_est_max",
   "casconf"]

/-- The numeric columns coerced by `process_dengue_data` in
`fetch_data.py`. -/
def numericColsFetch : List String :=
  ["casos_est", "casos_est_min", "casos_est_max", "casos",
   "p_rt1", "p_inc100k", "Rt", "pop", "receptivo", "transmissao",
   "umidmax", "umidmed", "umidmin", "tempmax", "tempmed", "tempmin"]

/-- The date columns parsed by `process_dengue_data` in `app.py` (both
historically used field names, in the code's order). -/
def dateColsApp : List String := ["data_iniSE", "data_ini_SE"]

/-- The date columns parsed by `process_dengue_data` in `fetch_data.py`. -/
def dateColsFetch : List String := ["data_iniSE"]

/-- `pd.to_numeric(v, errors='coerce')` on one cell: numbers stay,
datetimes convert to their integer value, integer-formatted strings
parse, anything else becomes missing. -/
def toNumeric : Val → Val
  | .num n => .num n
  | .date d => .num d
  | .str s =>
      match s.toInt? with
      | some n => .num n
      | none => .na
  | .na => .na

/-- Parse a `YYYY-MM-DD` string into the ordinal `y*10000+m*100+d`,
which is monotone in the date — all the model needs. -/
def parseDate (s : String) : Option Int :=
  match s.splitOn "-" with
  | [y, m, d] =>
      match y.toNat?, m.toNat?, d.toNat? with
      | some a, some b, some c => some (a * 10000 + b * 100 + c)
      | _, _, _ => none
  | _ => none

/-- `pd.to_datetime(v, errors='coerce')` on one cell: datetimes stay,
numbers are read as offsets from the epoch (`pd.to_datetime(0)` is
1970-01-01), parseable strings parse, anything else becomes missing. -/
def toDatetime : Val → Val
  | .date d => .date d
  | .num n => .date n
  | .str s =>
      match parseDate s with
      | some d => .date d
      | none => .na
  | .na => .na

/-- `fillna(0)` on one cell. -/
def fillnaZero : Val → Val
  | .na => .num 0
  | v => v

/-- Per-cell effect of `process_dengue_data` on column `c` before the
sort: numeric coercion when `c` is in the numeric list, then datetime
coercion when `c` is a date column, then the blanket `fillna(0)`. -/
def processCell (ncols dcols : List String) (c : String) (v : Val) : Val :=
  let v1 := if ncols.contains c then toNumeric v else v
  let v2 := if dcols.contains c then toDatetime v1 else v1
  fillnaZero v2

/-- Per-row effect of `process_dengue_data` before the sort. -/
def processRow (ncols dcols cols : List String) (row : List Val) :
    List Val :=
  List.zipWith (processCell ncols dcols) cols row

/-- `process_dengue_data`, parametrised by its numeric and date column
lists: empty input is returned unchanged; otherwise coerce the numeric
columns, parse the date columns, fill all missing values with zero, and
sort ascending by the first date column present (if any). -/
def processData (ncols dcols : List String) (t : Table) : Table :=
  if t.rows.isEmpty then t
  else
    let rows1 := t.rows.map (processRow ncols dcols t.cols)
    match dcols.find? (fun c => t.cols.contains c) with
    | some dc => ⟨t.cols, insSort (rowLe t.cols dc) rows1⟩
    | none => ⟨t.cols, rows1⟩

/-- `process_dengue_data` of `app.py` (21 numeric columns, both historic
date column names). -/
def process_dengue_data (t : Table) : Table :=
  processData numericColsApp dateColsApp t

/-- `process_dengue_data` of `fetch_data.py` (16 numeric columns, only
`data_iniSE`). -/
def process_dengue_data_fetch (t : Table) : Table :=
  processData numericColsFetch dateColsFetch t

/-- One-row table whose week-date value is missing: `process` turns the
missing date into `0`, and a second pass turns that `0` into the epoch
date, breaking idempotence. -/
def c2Table : Table := ⟨["data_iniSE"], [[Val.na]]⟩

/-- Table with a fully parseable date column, used to instantiate the
amended idempotence theorem. -/
def c2CleanTable : Table :=
  ⟨["data_iniSE", "casos"],
   [[Val.date 5, Val.num 3], [Val.date 4, Val.str "7"]]⟩

/-- Concrete three-row table over two municipalities (geocodes 100 and
200), used to instantiate the latest-per-municipality theorem. -/
def c1Table : Table :=
  ⟨["data_iniSE", "municipio_geocodigo"],
   [[Val.date 1, Val.num 100], [Val.date 2, Val.num 100],
    [Val.date 1, Val.num 200]]⟩

/-- One-column numeric table whose value fails numeric coercion, used to
instantiate the coercion-and-fill theorem. -/
def c5Table : Table := ⟨["casos"], [[Val.str "abc"]]⟩

/-- Two-row table with a week-date column out of order, used to
instantiate the sorting theorem. -/
def c6Table : Table := ⟨["data_iniSE"], [[Val.date 2], [Val.date 1]]⟩

/-! Alert-level mappings and the alert distribution. -/

/-- `get_alert_level_info` of `app.py`: display name and colour of an
alert level, `("Desconhecido", "#95a5a6")` for any value outside 1-4. -/
def get_alert_level_info (level : Int) : String × String :=
  if level = 1 then ("Verde", "#2ecc71")
  else if level = 2 then ("Amarelo", "#f39c12")
  else if level = 3 then ("Laranja", "#e67e22")
  else if level = 4 then ("Vermelho", "#e74c3c")
  else ("Desconhecido", "#95a5a6")

/-- The single-record-view name lookup of `app_simple.py`
(`nivel_names.get(nivel, "Desconhecido")`). -/
def nivel_name_simple (level : Int) : String :=
  if level = 1 then "Verde"
  else if level = 2 then "Amarelo"
  else if level = 3 then "Laranja"
  else if level = 4 then "Vermelho"
  else "Desconhecido"

/-- The single-record-view colour lookup of `app_simple.py`
(`nivel_colors.get(nivel, "#95a5a6")`). -/
def nivel_color_simple (level : Int) : String :=
  if level = 1 then "#2ecc71"
  else if level = 2 then "#f39c12"
  else if level = 3 then "#e67e22"
  else if level = 4 then "#e74c3c"
  else "#95a5a6"

/-- The distribution-view label of one alert-level value: the
`nivel_names` lookup with the f-string default — out-of-range levels are
labelled `"Nível <i>"`, not with a fixed unknown name.  (Non-numeric
index values are rendered like the Python f-string would.) -/
def nivelLabel (v : Val) : String :=
  match v with
  | .num n =>
      if n = 1 then "Verde"
      else if n = 2 then "Amarelo"
      else if n = 3 then "Laranja"
      else if n = 4 then "Vermelho"
      else "Nível " ++ toString n
  | .str s => "Nível " ++ s
  | .date d => "Nível " ++ toString d
  | .na => "Nível nan"

/-- The distribution-view colour of one alert-level value:
`nivel_colors.get(i, "#95a5a6")`. -/
def nivelColor (v : Val) : String :=
  match v with
  | .num n =>
      if n = 1 then "#2ecc71"
      else if n = 2 then "#f39c12"
      else if n = 3 then "#e67e22"
      else if n = 4 then "#e74c3c"
      else "#95a5a6"
  | _ => "#95a5a6"

/-- `Series.value_counts().sort_index()`: the distinct non-missing values
of the series, sorted ascending, each with its multiplicity
(`value_counts` drops missing values). -/
def value_counts (vs : List Val) : List (Val × Nat) :=
  (insSort valLe (vs.filter (fun v => !(v == Val.na))).dedup).map
    (fun v => (v, vs.count v))

/-- The data of the alert-distribution figure built by
`create_alert_distribution` (`app_simple.py`) and
`create_alert_level_distribution` (`app.py`): one entry per distinct
alert level of the latest-per-municipality snapshot — the level, its
label, its colour and its count — sorted by level.  `none` models the
guards (empty table, missing `nivel` column) and the caught errors. -/
def create_alert_distribution (t : Table) :
    Option (List (Val × String × String × Nat)) :=
  if t.rows.isEmpty then none
  else if t.cols.contains "nivel" = false then none
  else
    match latestSnapshot t with
    | none => none
    | some snap =>
        some ((value_counts (snap.map (fun r => getCol t.cols r "nivel"))).map
          (fun p => (p.1, nivelLabel p.1, nivelColor p.1, p.2)))

/-- One-row table whose alert level is missing: `value_counts` drops it,
so the distribution counts sum to 0 while the snapshot has one row. -/
def c9Table : Table :=
  ⟨["data_iniSE", "municipio_geocodigo", "nivel"],
   [[Val.date 1, Val.num 100, Val.na]]⟩

/-- Three-row, two-municipality table with no missing alert level, used
to instantiate the amended counts-sum theorem. -/
def c9CleanTable : Table :=
  ⟨["data_iniSE", "municipio_geocodigo", "nivel"],
   [[Val.date 1, Val.num 100, Val.num 2],
    [Val.date 2, Val.num 100, Val.num 3],
    [Val.date 1, Val.num 200, Val.num 3]]⟩

/-! JSON responses, the response normalizer, and the HTTP fetchers. -/

/-- A JSON value, as returned by `response.json()`. -/
inductive Json where
  | null : Json
  | bool : Bool → Json
  | num : Int → Json
  | str : String → Json
  | arr : List Json → Json
  | obj : List (String × Json) → Json

/-- Whether a JSON value is an object (`isinstance(data, dict)`). -/
def isObj : Json → Bool
  | .obj _ => true
  | _ => false

/-- Whether a JSON value is an array (`isinstance(data, list)`). -/
def isArr : Json → Bool
  | .arr _ => true
  | _ => false

/-- The keys of a JSON object, in order. -/
def jKeys : Json → List String
  | .obj kvs => kvs.map (fun p => p.1)
  | _ => []

/-- Field lookup in a JSON object. -/
def jGet (j : Json) (c : String) : Option Json :=
  match j with
  | .obj kvs => (kvs.find? (fun p => p.1 == c)).map (fun p => p.2)
  | _ => none

/-- A scalar JSON value as a dataframe cell (nested containers inside a
cell are outside the model's scope and read as missing). -/
def jval : Json → Val
  | .null => .na
  | .bool b => .num (if b then 1 else 0)
  | .num n => .num n
  | .str s => .str s
  | .arr _ => .na
  | .obj _ => .na

/-- `pd.DataFrame(list_of_records)`: for a list of objects, one row per
object over the union of their keys, absent fields reading as missing;
for a list of scalars, a single positional column. -/
def listToTable (es : List Json) : Table :=
  if es.all isObj then
    let cols := ((es.map jKeys).flatten).dedup
    ⟨cols, es.map (fun e => cols.map (fun c =>
      match jGet e c with
      | some v => jval v
      | none => Val.na))⟩
  else
    ⟨["0"], es.map (fun e => [jval e])⟩

/-- Response shaping of `fetch_infodengue_data` in `app_simple.py`:
a JSON array gives one row per element, a single object gives a one-row
table, and any other shape gives the empty table. -/
def normalize_simple (j : Json) : Table :=
  match j with
  | .arr es => listToTable es
  | .obj kvs => listToTable [Json.obj kvs]
  | _ => emptyTable

/-- Response shaping of `fetch_municipality_data` in `app.py`:
a JSON array gives one row per element, and **any** other value is
wrapped as a single record (`pd.DataFrame([data])`), a one-row table. -/
def normalize_app (j : Json) : Table :=
  match j with
  | .arr es => listToTable es
  | j => listToTable [j]

/-- A failed HTTP request: timeout, connection error, or the
`raise_for_status` of a non-2xx response. -/
inductive NetErr where
  | timeout : NetErr
  | connError : NetErr
  | httpStatus : Nat → NetErr
deriving DecidableEq, Repr

/-- One parsed page of the paginated bulk endpoint: its `items` and its
`pagination.total_pages`, with the code's `.get` defaults applied. -/
structure ApiResponse where
  items : List Json
  total_pages : Nat

/-- The pages requested after page 1: `range(2, last + 1)`. -/
def pagesFrom2 (last : Nat) : List Nat := List.range' 2 (last - 1)

/-- Sequentially request the given pages, extending `acc` with each
page's items; the first failure aborts the whole loop. -/
def fetch_pages (net : Nat → Except NetErr ApiResponse) :
    List Nat → List Json → Except NetErr (List Json)
  | [], acc => Except.ok acc
  | p :: ps, acc =>
      match net p with
      | Except.error e => Except.error e
      | Except.ok r => fetch_pages net ps (acc ++ r.items)

/-- The item-gathering loop of `fetch_infodengue_state_data` (`app.py`):
page 1, then pages `2 .. min(total_pages, 5)`
(`range(2, min(total_pages + 1, 6))`), items concatenated in page
order. -/
def all_items_app (net : Nat → Except NetErr ApiResponse) :
    Except NetErr (List Json) :=
  match net 1 with
  | Except.error e => Except.error e
  | Except.ok r1 =>
      fetch_pages net (pagesFrom2 (min r1.total_pages 5)) r1.items

/-- The item-gathering loop of `fetch_infodengue_data`
(`fetch_data.py`): page 1, then pages `2 .. total_pages`, unbounded. -/
def all_items_fetch (net : Nat → Except NetErr ApiResponse) :
    Except NetErr (List Json) :=
  match net 1 with
  | Except.error e => Except.error e
  | Except.ok r1 => fetch_pages net (pagesFrom2 r1.total_pages) r1.items

/-- `fetch_infodengue_state_data` (`app.py`): gather all pages' items,
build the dataframe, process it when nonempty; any failure is caught
(`except Exception`) and yields the empty dataframe. -/
def fetch_infodengue_state_data
    (net : Nat → Except NetErr ApiResponse) : Table :=
  match all_items_app net with
  | Except.error _ => emptyTable
  | Except.ok items =>
      let df := listToTable items
      if df.rows.isEmpty then df else process_dengue_data df

/-- `fetch_infodengue_data` (`fetch_data.py`): gather all pages' items
and build the dataframe; a `RequestException` is caught and yields the
empty dataframe. -/
def fetch_infodengue_data
    (net : Nat → Except NetErr ApiResponse) : Table :=
  match all_items_fetch net with
  | Except.error _ => emptyTable
  | Except.ok items => listToTable items

/-- A network where every page succeeds, page `p` carrying the single
item `p`, with three total pages. -/
def c3Net : Nat → Except NetErr ApiResponse :=
  fun p => Except.ok ⟨[Json.num (Int.ofNat p)], 3⟩

/-- A network where page 1 succeeds (reporting three pages) and every
later page times out. -/
def c4Net : Nat → Except NetErr ApiResponse :=
  fun p =>
    if p = 1 then Except.ok ⟨[Json.num 1], 3⟩
    else Except.error NetErr.timeout

/-! The consolidated state-wide fetch of `app_simple.py`. -/

/-- The static municipality table `GOIAS_MUNICIPALITIES` of
`app_simple.py`, in insertion order. -/
def GOIAS_MUNICIPALITIES : List (Int × String) :=
  [(5103403, "Goiânia"), (5104402, "Anápolis"),
   (5103809, "Aparecida de Goiânia"), (5104304, "Abadia de Goiás"),
   (5104700, "Aragarças"), (5105002, "Arenópolis"),
   (5105101, "Argolândia"), (5105408, "Aurilândia"),
   (5105507, "Avelinópolis"), (5105606, "Baliza"),
   (5105705, "Bom Jardim de Goiás"), (5105804, "Britânia"),
   (5106001, "Buriti Alegre"), (5106100, "Cachoeira de Goiás"),
   (5106209, "Caçu"), (5106308, "Caiapônia"),
   (5106407, "Caldas Novas"), (5106506, "Caldazinha"),
   (5106605, "Campestre de Goiás"), (5106704, "Campinaçu")]

/-- `df[c] = v` with a scalar: overwrite the column when it exists, else
append it, every row receiving `v`. -/
def setCol (t : Table) (c : String) (v : Val) : Table :=
  if t.cols.contains c then
    ⟨t.cols, t.rows.map (fun r =>
      List.zipWith (fun n x => if n = c then v else x) t.cols r)⟩
  else
    ⟨t.cols ++ [c], t.rows.map (fun r => r ++ [v])⟩

/-- `pd.concat(ts, ignore_index=True)`: rows concatenated in order, each
reindexed to the union of the columns, absent columns reading as
missing. -/
def concatTables (ts : List Table) : Table :=
  let cols := ((ts.map (fun t => t.cols)).flatten).dedup
  ⟨cols, (ts.map (fun t =>
    t.rows.map (fun r => cols.map (fun c => getCol t.cols r c)))).flatten⟩

/-- The per-municipality loop body of `fetch_all_municipalities_data`:
each nonempty fetch result gets the municipality name and geocode
columns attached; empty results are skipped. -/
def tagTables (fetch : Int → Table) : List Table :=
  GOIAS_MUNICIPALITIES.filterMap (fun gp =>
    if (fetch gp.1).rows.isEmpty then none
    else some (setCol (setCol (fetch gp.1) "municipio_nome" (Val.str gp.2))
      "municipio_geocodigo" (Val.num gp.1)))

/-- `fetch_all_municipalities_data` (`app_simple.py`): fetch every
municipality of the static table, attach the name and geocode columns to
the nonempty results, and concatenate them; if every fetch is empty the
result is the empty dataframe. -/
def fetch_all_municipalities_data (fetch : Int → Table) : Table :=
  if (tagTables fetch).isEmpty then emptyTable
  else concatTables (tagTables fetch)

/-- A fetch function giving Goiânia one record, Anápolis two records,
and every other municipality nothing. -/
def c10Fetch : Int → Table :=
  fun g =>
    if g = 5103403 then
      ⟨["data_iniSE", "casos"], [[Val.date 1, Val.num 10]]⟩
    else if g = 5104402 then
      ⟨["data_iniSE", "casos"],
       [[Val.date 1, Val.num 2], [Val.date 2, Val.num 4]]⟩
    else emptyTable

/-! ### Theorems -/

theorem valLe_refl (a : Val) : valLe a a = true := by
  cases a <;> simp [valLe]

theorem valLe_total (a b : Val) : valLe a b = true ∨ valLe b a = true := by
  cases a <;> cases b <;> simp [valLe, valRank] <;>
    first
      | omega
      | exact le_total _ _

theorem valLe_trans {a b c : Val} (h1 : valLe a b = true) (h2 : valLe b c = true) :
    valLe a c = true := by
  cases a <;> cases b <;> cases c <;>
    simp only [valLe, valRank, decide_eq_true_eq] at * <;>
    first
      | rfl
      | omega
      | exact le_trans h1 h2

theorem perm_insRow (le : α → α → Bool) (a : α) (l : List α) :
    (insRow le a l).Perm (a :: l) := by
  induction l with
  | nil => simp [insRow]
  | cons b l ih =>
      by_cases h : le a b = true
      · simp [insRow, h]
      · show (if le a b then a :: b :: l else b :: insRow le a l).Perm (a :: b :: l)
        rw [if_neg h]
        exact (ih.cons b).trans (List.Perm.swap a b l)

theorem perm_insSort (le : α → α → Bool) (l : List α) :
    (insSort le l).Perm l := by
  induction l with
  | nil => simp [insSort]
  | cons a l ih =>
      exact ((perm_insRow le a (insSort le l)).trans (List.Perm.cons a ih))

theorem mem_insSort (le : α → α → Bool) {l : List α} {x : α} :
    x ∈ insSort le l ↔ x ∈ l :=
  (perm_insSort le l).mem_iff

theorem sorted_insRow (le : α → α → Bool)
    (htot : ∀ a b, le a b = true ∨ le b a = true)
    (htrans : ∀ {a b c}, le a b = true → le b c = true → le a c = true)
    (a : α) {l : List α}
    (hl : SortedBy le l) : SortedBy le (insRow le a l) := by
  induction l with
  | nil => simp [insRow, SortedBy]
  | cons b l ih =>
      rcases List.pairwise_cons.mp hl with ⟨hb, hl'⟩
      by_cases h : le a b = true
      · show SortedBy le (if le a b then a :: b :: l else b :: insRow le a l)
        rw [if_pos h]
        refine List.pairwise_cons.mpr ⟨?_, hl⟩
        intro x hx
        rcases List.mem_cons.mp hx with rfl | hx
        · exact h
        · exact htrans h (hb _ hx)
      · show SortedBy le (if le a b then a :: b :: l else b :: insRow le a l)
        rw [if_neg h]
        refine List.pairwise_cons.mpr ⟨?_, ih hl'⟩
        intro x hx
        rcases List.mem_cons.mp ((perm_insRow le a l).mem_iff.mp hx) with rfl | hx
        · rcases htot x b with h' | h'
          · exact absurd h' h
          · exact h'
        · exact hb _ hx

theorem sorted_insSort (le : α → α → Bool)
    (htot : ∀ a b, le a b = true ∨ le b a = true)
    (htrans : ∀ {a b c}, le a b = true → le b c = true → le a c = true)
    (l : List α) :
    SortedBy le (insSort le l) := by
  induction l with
  | nil => exact List.Pairwise.nil
  | cons a l ih => exact sorted_insRow le htot htrans a ih

theorem insRow_eq_cons (le : α → α → Bool) {a : α} {l : List α}
    (h : ∀ x ∈ l, le a x = true) : insRow le a l = a :: l := by
  cases l with
  | nil => rfl
  | cons b l =>
      show (if le a b then a :: b :: l else b :: insRow le a l) = a :: b :: l
      rw [if_pos (h b (List.mem_cons_self b l))]

theorem insSort_eq_of_sorted (le : α → α → Bool) {l : List α}
    (hl : SortedBy le l) : insSort le l = l := by
  induction l with
  | nil => rfl
  | cons a l ih =>
      rcases List.pairwise_cons.mp hl with ⟨ha, hl'⟩
      show insRow le a (insSort le l) = a :: l
      rw [ih hl']
      exact insRow_eq_cons le ha

theorem insSort_eq_of_tied (le : α → α → Bool) {l : List α}
    (h : ∀ x ∈ l, ∀ y ∈ l, le x y = true) : insSort le l = l := by
  induction l with
  | nil => rfl
  | cons a l ih =>
      show insRow le a (insSort le l) = a :: l
      rw [ih (fun x hx y hy => h x (List.mem_cons_of_mem a hx) y (List.mem_cons_of_mem a hy))]
      exact insRow_eq_cons le
        (fun x hx => h a (List.mem_cons_self a l) x (List.mem_cons_of_mem a hx))

theorem filter_insRow (le : α → α → Bool)
    (htrans : ∀ {a b c}, le a b = true → le b c = true → le a c = true)
    (p : α → Bool) (a : α) {l : List α} (hl : SortedBy le l) :
    (insRow le a l).filter p =
      if p a then insRow le a (l.filter p) else l.filter p := by
  induction l with
  | nil =>
      by_cases hpa : p a = true <;> simp [insRow, hpa]
  | cons b l ih =>
      rcases List.pairwise_cons.mp hl with ⟨hb, hl'⟩
      by_cases h : le a b = true
      · show ((if le a b then a :: b :: l else b :: insRow le a l).filter p) = _
        rw [if_pos h]
        by_cases hpa : p a = true
        · rw [if_pos hpa]
          by_cases hpb : p b = true
          · have : (b :: l).filter p = b :: l.filter p := by
              simp [List.filter_cons, hpb]
            simp only [List.filter_cons, hpa, hpb, this]
            show a :: b :: l.filter p = insRow le a (b :: l.filter p)
            rw [show insRow le a (b :: l.filter p)
                  = (if le a b then a :: b :: l.filter p
                      else b :: insRow le a (l.filter p)) from rfl,
              if_pos h]
          · simp only [List.filter_cons, hpa, hpb]
            simp only [if_pos, if_neg, Bool.false_eq_true, ite_false, ite_true]
            rw [insRow_eq_cons le]
            intro x hx
            exact htrans h (hb x (List.mem_of_mem_filter hx))
        · simp only [List.filter_cons, hpa]
          simp [hpa]
      · show ((if le a b then a :: b :: l else b :: insRow le a l).filter p) = _
        rw [if_neg h]
        by_cases hpb : p b = true
        · simp only [List.filter_cons, hpb, ite_true, ih hl']
          by_cases hpa : p a = true
          · rw [if_pos hpa, if_pos hpa]
            show b :: insRow le a (l.filter p)
                = insRow le a (b :: l.filter p)
            rw [show insRow le a (b :: l.filter p)
                  = (if le a b then a :: b :: l.filter p
                      else b :: insRow le a (l.filter p)) from rfl,
              if_neg h]
          · rw [if_neg hpa, if_neg hpa]
        · simp only [List.filter_cons, hpb, Bool.false_eq_true, ite_false, ih hl']

theorem filter_insSort (le : α → α → Bool)
    (htot : ∀ a b, le a b = true ∨ le b a = true)
    (htrans : ∀ {a b c}, le a b = true → le b c = true → le a c = true)
    (p : α → Bool) (l : List α) :
    (insSort le l).filter p = insSort le (l.filter p) := by
  induction l with
  | nil => rfl
  | cons a l ih =>
      show (insRow le a (insSort le l)).filter p = insSort le ((a :: l).filter p)
      rw [filter_insRow le htrans p a (sorted_insSort le htot htrans l), ih]
      by_cases hpa : p a = true
      · rw [if_pos hpa]
        simp [List.filter_cons, hpa]
        rfl
      · rw [if_neg hpa]
        simp [List.filter_cons, hpa]

theorem sorted_getLast?_ge {le : α → α → Bool} {l : List α} {r : α}
    (hrefl : ∀ a, le a a = true)
    (hl : SortedBy le l) (hr : l.getLast? = some r) :
    ∀ s ∈ l, le s r = true := by
  induction l with
  | nil => simp at hr
  | cons a l ih =>
      intro s hs
      cases l with
      | nil =>
          simp at hr hs
          subst hr; subst hs; exact hrefl _
      | cons b l' =>
          rcases List.pairwise_cons.mp hl with ⟨ha, hl'⟩
          rw [List.getLast?_cons_cons] at hr
          rcases List.mem_cons.mp hs with rfl | hs
          · exact ha r (List.mem_of_getLast?_eq_some hr)
          · exact ih hl' hr s hs

theorem getLast?_filter_of_last {l : List α} {r : α} {p : α → Bool}
    (hr : l.getLast? = some r) (hp : p r = true) :
    (l.filter p).getLast? = some r := by
  induction l with
  | nil => simp at hr
  | cons a l ih =>
      cases l with
      | nil =>
          simp at hr
          subst hr
          simp [List.filter_cons, hp]
      | cons b l' =>
          rw [List.getLast?_cons_cons] at hr
          have htail := ih hr
          by_cases hpa : p a = true
          · rw [List.filter_cons, if_pos hpa]
            cases hfp : (b :: l').filter p with
            | nil =>
                rw [hfp] at htail
                simp at htail
            | cons x xs =>
                rw [hfp] at htail
                rw [List.getLast?_cons_cons]
                exact htail
          · rw [List.filter_cons, if_neg hpa]
            exact htail

theorem groupTail1_cons (key : α → Val) (r : α) (rs : List α) :
    groupTail1 key (r :: rs) =
      if key r = Val.na then groupTail1 key rs
      else if rs.any (fun s => key s == key r) then groupTail1 key rs
      else r :: groupTail1 key rs := rfl

theorem mem_of_mem_groupTail1 {key : α → Val} {l : List α} {x : α}
    (h : x ∈ groupTail1 key l) : x ∈ l := by
  induction l with
  | nil => simp [groupTail1] at h
  | cons r rs ih =>
      rw [groupTail1_cons] at h
      by_cases hna : key r = Val.na
      · rw [if_pos hna] at h
        exact List.mem_cons_of_mem r (ih h)
      · rw [if_neg hna] at h
        by_cases hany : rs.any (fun s => key s == key r) = true
        · rw [if_pos hany] at h
          exact List.mem_cons_of_mem r (ih h)
        · rw [if_neg hany] at h
          rcases List.mem_cons.mp h with rfl | h
          · exact List.mem_cons_self x rs
          · exact List.mem_cons_of_mem r (ih h)

theorem mem_groupTail1 {key : α → Val} {l : List α} {x : α} :
    x ∈ groupTail1 key l ↔
      key x ≠ Val.na ∧
        (l.filter (fun s => key s == key x)).getLast? = some x := by
  induction l with
  | nil => simp [groupTail1]
  | cons r rs ih =>
      rw [groupTail1_cons]
      by_cases hna : key r = Val.na
      · rw [if_pos hna, ih]
        by_cases hx : key x = Val.na
        · simp [hx]
        · have hq : (key r == key x) = false := by
            simp only [beq_eq_false_iff_ne, ne_eq]
            intro he
            exact hx (he ▸ hna)
          rw [List.filter_cons, hq]
          simp
      · rw [if_neg hna]
        by_cases hq : (key r == key x) = true
        · have hkeq : key r = key x := beq_iff_eq.mp hq
          rw [List.filter_cons, hq]
          simp only [if_pos]
          by_cases hany : rs.any (fun s => key s == key r) = true
          · rw [if_pos hany, ih]
            rcases List.any_eq_true.mp hany with ⟨w, hw, hwk⟩
            have hwmem : w ∈ rs.filter (fun s => key s == key x) := by
              refine List.mem_filter.mpr ⟨hw, ?_⟩
              rw [beq_iff_eq] at hwk ⊢
              rw [hwk, hkeq]
            have hne : rs.filter (fun s => key s == key x) ≠ [] := by
              intro hnil
              rw [hnil] at hwmem
              exact absurd hwmem (List.not_mem_nil w)
            cases hfp : rs.filter (fun s => key s == key x) with
            | nil => exact absurd hfp hne
            | cons y ys =>
                rw [List.getLast?_cons_cons]
          · rw [if_neg hany]
            constructor
            · intro hmem
              rcases List.mem_cons.mp hmem with rfl | hmem
              · have hfe : rs.filter (fun s => key s == key x) = [] := by
                  rw [List.filter_eq_nil_iff]
                  intro s hs hks
                  apply hany
                  refine List.any_eq_true.mpr ⟨s, hs, ?_⟩
                  rw [beq_iff_eq] at hks ⊢
                  rw [hks, hkeq]
                rw [hfe]
                exact ⟨fun he => hna (hkeq ▸ he), rfl⟩
              · have := (ih.mp hmem).2
                have hxrs : x ∈ rs.filter (fun s => key s == key x) :=
                  List.mem_of_getLast?_eq_some this
                have : x ∈ rs := List.mem_of_mem_filter hxrs
                have hkx : (key x == key r) = true := by
                  rw [beq_iff_eq, hkeq]
                exact absurd (List.any_eq_true.mpr ⟨x, this, by
                  rw [beq_iff_eq, hkeq]⟩) hany
            · intro ⟨hxna, hlast⟩
              have hfe : rs.filter (fun s => key s == key x) = [] := by
                rw [List.filter_eq_nil_iff]
                intro s hs hks
                apply hany
                refine List.any_eq_true.mpr ⟨s, hs, ?_⟩
                rw [beq_iff_eq] at hks ⊢
                rw [hks, hkeq]
              rw [hfe] at hlast
              simp at hlast
              exact hlast ▸ List.mem_cons_self r (groupTail1 key rs)
        · have hq' : (key r == key x) = false := by
            simpa using hq
          rw [List.filter_cons, hq']
          simp only [Bool.false_eq_true, ite_false]
          by_cases hany : rs.any (fun s => key s == key r) = true
          · rw [if_pos hany, ih]
          · rw [if_neg hany]
            rw [List.mem_cons, ih]
            constructor
            · rintro (rfl | h)
              · exact absurd (beq_iff_eq.mpr rfl) hq
              · exact h
            · intro h
              exact Or.inr h

theorem keys_nodup_groupTail1 (key : α → Val) (l : List α) :
    ((groupTail1 key l).map key).Nodup := by
  induction l with
  | nil => simp [groupTail1]
  | cons r rs ih =>
      rw [groupTail1_cons]
      by_cases hna : key r = Val.na
      · rw [if_pos hna]; exact ih
      · by_cases hany : rs.any (fun s => key s == key r) = true
        · rw [if_neg hna, if_pos hany]; exact ih
        · rw [if_neg hna, if_neg hany]
          rw [List.map_cons]
          refine List.nodup_cons.mpr ⟨?_, ih⟩
          intro hmem
          rcases List.mem_map.mp hmem with ⟨s, hs, hks⟩
          have hsrs : s ∈ rs := mem_of_mem_groupTail1 hs
          exact hany (List.any_eq_true.mpr ⟨s, hsrs, beq_iff_eq.mpr hks⟩)

theorem mem_keys_groupTail1 {key : α → Val} {l : List α} {v : Val}
    (hv : v ∈ l.map key) (hna : v ≠ Val.na) :
    v ∈ (groupTail1 key l).map key := by
  induction l with
  | nil => simp at hv
  | cons r rs ih =>
      rw [groupTail1_cons]
      rcases List.mem_map.mp hv with ⟨s, hs, hks⟩
      by_cases hrna : key r = Val.na
      · rw [if_pos hrna]
        rcases List.mem_cons.mp hs with rfl | hs'
        · exact absurd (hks.symm.trans hrna) hna
        · exact ih (List.mem_map.mpr ⟨s, hs', hks⟩)
      · by_cases hany : rs.any (fun s => key s == key r) = true
        · rw [if_neg hrna, if_pos hany]
          rcases List.mem_cons.mp hs with rfl | hs'
          · rcases List.any_eq_true.mp hany with ⟨w, hw, hwk⟩
            exact ih (List.mem_map.mpr ⟨w, hw, (beq_iff_eq.mp hwk).trans hks⟩)
          · exact ih (List.mem_map.mpr ⟨s, hs', hks⟩)
        · rw [if_neg hrna, if_neg hany, List.map_cons]
          rcases List.mem_cons.mp hs with rfl | hs'
          · exact hks ▸ List.mem_cons_self _ _
          · exact List.mem_cons_of_mem _ (ih (List.mem_map.mpr ⟨s, hs', hks⟩))

theorem keys_subset_groupTail1 {key : α → Val} {l : List α} {v : Val}
    (hv : v ∈ (groupTail1 key l).map key) : v ∈ l.map key := by
  rcases List.mem_map.mp hv with ⟨s, hs, hks⟩
  exact List.mem_map.mpr ⟨s, mem_of_mem_groupTail1 hs, hks⟩

/-! Row comparison facts, instantiating the generic sort lemmas. -/

theorem rowLe_refl (cols : List String) (c : String) (r : List Val) :
    rowLe cols c r r = true := valLe_refl _

theorem rowLe_total (cols : List String) (c : String) :
    ∀ r s, rowLe cols c r s = true ∨ rowLe cols c s r = true :=
  fun _ _ => valLe_total _ _

theorem rowLe_trans (cols : List String) (c : String) :
    ∀ {r s u}, rowLe cols c r s = true → rowLe cols c s u = true →
      rowLe cols c r u = true :=
  fun h1 h2 => valLe_trans h1 h2

theorem latestSnapshot_geocode (t : Table)
    (hd : t.cols.contains (dateColOf t) = true)
    (hgc : t.cols.contains (geocodeColOf t) = true) :
    latestSnapshot t =
      some (groupTail1 (fun r => getCol t.cols r (geocodeColOf t))
        (sortValuesRows t (dateColOf t))) := by
  simp only [latestSnapshot, hd, hgc]
  rfl

theorem latestSnapshot_fallback (t : Table)
    (hd : t.cols.contains (dateColOf t) = true)
    (hgc : t.cols.contains (geocodeColOf t) = false)
    (hnm : t.cols.contains "municipio_nome" = true) :
    latestSnapshot t =
      some ((sortValuesRows t (dateColOf t)).drop
        ((sortValuesRows t (dateColOf t)).length -
          (t.rows.map (fun r => getCol t.cols r "municipio_nome")).dedup.length)) := by
  simp only [latestSnapshot, hd, hgc, hnm]
  rfl

/-- C1: on a table with a date column and a municipality-identifier
column, the latest-per-municipality aggregation keeps exactly one row per
distinct (non-missing) municipality identifier — its key list is
duplicate-free and covers exactly the distinct identifiers of the input —
and every kept row is a row of the input whose date is maximal within its
municipality and is the last row of the input bearing that identifier and
that maximal date (last-wins on ties); when the identifier column is
absent, the aggregation instead returns the tail of the date-sorted table
whose length is the number of distinct municipality names. -/
theorem c1_latest_per_municipality (t : Table)
    (hd : t.cols.contains (dateColOf t) = true) :
    (t.cols.contains (geocodeColOf t) = true →
      ∃ snap, latestSnapshot t = some snap ∧
        ((snap.map (fun r => getCol t.cols r (geocodeColOf t))).Nodup ∧
         (∀ v : Val, v ≠ Val.na →
           (v ∈ t.rows.map (fun r => getCol t.cols r (geocodeColOf t)) ↔
            v ∈ snap.map (fun r => getCol t.cols r (geocodeColOf t)))) ∧
         (∀ r ∈ snap, r ∈ t.rows ∧
           (∀ s ∈ t.rows,
              getCol t.cols s (geocodeColOf t) = getCol t.cols r (geocodeColOf t) →
              valLe (getCol t.cols s (dateColOf t))
                (getCol t.cols r (dateColOf t)) = true) ∧
           (t.rows.filter (fun s =>
              (getCol t.cols s (geocodeColOf t) == getCol t.cols r (geocodeColOf t)) &&
              valLe (getCol t.cols r (dateColOf t))
                (getCol t.cols s (dateColOf t)))).getLast? = some r))) ∧
    (t.cols.contains (geocodeColOf t) = false →
      t.cols.contains "municipio_nome" = true →
      latestSnapshot t = some ((sortValuesRows t (dateColOf t)).drop
        ((sortValuesRows t (dateColOf t)).length -
          (t.rows.map (fun r => getCol t.cols r "municipio_nome")).dedup.length))) := by
  constructor
  · intro hgc
    refine ⟨groupTail1 (fun r => getCol t.cols r (geocodeColOf t))
        (sortValuesRows t (dateColOf t)),
      latestSnapshot_geocode t hd hgc, ?_, ?_, ?_⟩
    · exact keys_nodup_groupTail1 _ _
    · intro v hv
      have hperm :
          ((sortValuesRows t (dateColOf t)).map
              (fun r => getCol t.cols r (geocodeColOf t))).Perm
            (t.rows.map (fun r => getCol t.cols r (geocodeColOf t))) :=
        (perm_insSort _ _).map _
      constructor
      · intro hmem
        exact mem_keys_groupTail1 (hperm.mem_iff.mpr hmem) hv
      · intro hmem
        exact hperm.mem_iff.mp (keys_subset_groupTail1 hmem)
    · intro r hr
      rcases mem_groupTail1.mp hr with ⟨hkna, hlast⟩
      have hrfilter : r ∈ (sortValuesRows t (dateColOf t)).filter
          (fun s => getCol t.cols s (geocodeColOf t) ==
            getCol t.cols r (geocodeColOf t)) :=
        List.mem_of_getLast?_eq_some hlast
      have hrS : r ∈ sortValuesRows t (dateColOf t) :=
        List.mem_of_mem_filter hrfilter
      have hrrows : r ∈ t.rows := (mem_insSort _).mp hrS
      have hsortedS : SortedBy (rowLe t.cols (dateColOf t))
          (sortValuesRows t (dateColOf t)) :=
        sorted_insSort _ (rowLe_total _ _) (rowLe_trans _ _) _
      have hsortedF : SortedBy (rowLe t.cols (dateColOf t))
          ((sortValuesRows t (dateColOf t)).filter
            (fun s => getCol t.cols s (geocodeColOf t) ==
              getCol t.cols r (geocodeColOf t))) :=
        List.Pairwise.filter _ hsortedS
      have hmax : ∀ s ∈ t.rows,
          getCol t.cols s (geocodeColOf t) = getCol t.cols r (geocodeColOf t) →
          valLe (getCol t.cols s (dateColOf t))
            (getCol t.cols r (dateColOf t)) = true := by
        intro s hs hkey
        have hsF : s ∈ (sortValuesRows t (dateColOf t)).filter
            (fun u => getCol t.cols u (geocodeColOf t) ==
              getCol t.cols r (geocodeColOf t)) :=
          List.mem_filter.mpr ⟨(mem_insSort _).mpr hs, beq_iff_eq.mpr hkey⟩
        exact sorted_getLast?_ge (rowLe_refl t.cols (dateColOf t)) hsortedF hlast s hsF
      refine ⟨hrrows, hmax, ?_⟩
      have hfilterS :
          (sortValuesRows t (dateColOf t)).filter
              (fun s => getCol t.cols s (geocodeColOf t) ==
                getCol t.cols r (geocodeColOf t)) =
            insSort (rowLe t.cols (dateColOf t))
              (t.rows.filter
                (fun s => getCol t.cols s (geocodeColOf t) ==
                  getCol t.cols r (geocodeColOf t))) :=
        filter_insSort _ (rowLe_total _ _) (rowLe_trans _ _) _ _
      have h1 : (((sortValuesRows t (dateColOf t)).filter
            (fun s => getCol t.cols s (geocodeColOf t) ==
              getCol t.cols r (geocodeColOf t))).filter
            (fun s => valLe (getCol t.cols r (dateColOf t))
              (getCol t.cols s (dateColOf t)))).getLast? = some r :=
        getLast?_filter_of_last hlast (valLe_refl _)
      rw [hfilterS] at h1
      rw [filter_insSort _ (rowLe_total _ _) (rowLe_trans _ _)] at h1
      have htied : insSort (rowLe t.cols (dateColOf t))
          ((t.rows.filter
              (fun s => getCol t.cols s (geocodeColOf t) ==
                getCol t.cols r (geocodeColOf t))).filter
            (fun s => valLe (getCol t.cols r (dateColOf t))
              (getCol t.cols s (dateColOf t)))) =
          (t.rows.filter
              (fun s => getCol t.cols s (geocodeColOf t) ==
                getCol t.cols r (geocodeColOf t))).filter
            (fun s => valLe (getCol t.cols r (dateColOf t))
              (getCol t.cols s (dateColOf t))) := by
        apply insSort_eq_of_tied
        intro x hx y hy
        have hxq := List.mem_filter.mp (List.mem_of_mem_filter hx)
        have hyp := (List.mem_filter.mp hy).2
        have hxmax : valLe (getCol t.cols x (dateColOf t))
            (getCol t.cols r (dateColOf t)) = true :=
          hmax x hxq.1 (beq_iff_eq.mp hxq.2)
        exact valLe_trans hxmax hyp
      rw [htied] at h1
      rw [List.filter_filter] at h1
      have hcongr :
          t.rows.filter (fun s =>
              valLe (getCol t.cols r (dateColOf t))
                (getCol t.cols s (dateColOf t)) &&
              (getCol t.cols s (geocodeColOf t) ==
                getCol t.cols r (geocodeColOf t))) =
          t.rows.filter (fun s =>
              (getCol t.cols s (geocodeColOf t) ==
                getCol t.cols r (geocodeColOf t)) &&
              valLe (getCol t.cols r (dateColOf t))
                (getCol t.cols s (dateColOf t))) := by
        apply List.filter_congr
        intro x _
        exact Bool.and_comm _ _
      rw [hcongr] at h1
      exact h1
  · intro hgc hnm
    exact latestSnapshot_fallback t hd hgc hnm

/-- Witness for C1 at a concrete three-row, two-municipality table. -/
theorem c1_latest_per_municipality_witness :
    c1Table.cols.contains (dateColOf c1Table) = true ∧
    ((c1Table.cols.contains (geocodeColOf c1Table) = true →
      ∃ snap, latestSnapshot c1Table = some snap ∧
        ((snap.map (fun r => getCol c1Table.cols r (geocodeColOf c1Table))).Nodup ∧
         (∀ v : Val, v ≠ Val.na →
           (v ∈ c1Table.rows.map
              (fun r => getCol c1Table.cols r (geocodeColOf c1Table)) ↔
            v ∈ snap.map
              (fun r => getCol c1Table.cols r (geocodeColOf c1Table)))) ∧
         (∀ r ∈ snap, r ∈ c1Table.rows ∧
           (∀ s ∈ c1Table.rows,
              getCol c1Table.cols s (geocodeColOf c1Table) =
                getCol c1Table.cols r (geocodeColOf c1Table) →
              valLe (getCol c1Table.cols s (dateColOf c1Table))
                (getCol c1Table.cols r (dateColOf c1Table)) = true) ∧
           (c1Table.rows.filter (fun s =>
              (getCol c1Table.cols s (geocodeColOf c1Table) ==
                getCol c1Table.cols r (geocodeColOf c1Table)) &&
              valLe (getCol c1Table.cols r (dateColOf c1Table))
                (getCol c1Table.cols s (dateColOf c1Table)))).getLast? =
             some r))) ∧
    (c1Table.cols.contains (geocodeColOf c1Table) = false →
      c1Table.cols.contains "municipio_nome" = true →
      latestSnapshot c1Table =
        some ((sortValuesRows c1Table (dateColOf c1Table)).drop
          ((sortValuesRows c1Table (dateColOf c1Table)).length -
            (c1Table.rows.map
              (fun r => getCol c1Table.cols r "municipio_nome")).dedup.length)))) :=
  ⟨by decide, c1_latest_per_municipality c1Table (by decide)⟩

theorem isEmpty_false_of_ne_nil {l : List α} (h : l ≠ []) :
    l.isEmpty = false := by
  cases l with
  | nil => exact absurd rfl h
  | cons a l => rfl

theorem map_eq_self_of_fix {f : α → α} {l : List α}
    (h : ∀ x ∈ l, f x = x) : l.map f = l := by
  induction l with
  | nil => rfl
  | cons a l ih =>
      rw [List.map_cons, h a (List.mem_cons_self a l),
        ih (fun x hx => h x (List.mem_cons_of_mem _ hx))]

theorem toNumeric_shape (v : Val) :
    (∃ n, toNumeric v = Val.num n) ∨ toNumeric v = Val.na := by
  cases v with
  | num n => exact Or.inl ⟨n, rfl⟩
  | date d => exact Or.inl ⟨d, rfl⟩
  | na => exact Or.inr rfl
  | str s =>
      cases h : s.toInt? with
      | some n => exact Or.inl ⟨n, by simp [toNumeric, h]⟩
      | none => exact Or.inr (by simp [toNumeric, h])

theorem toDatetime_shape (v : Val) :
    (∃ d, toDatetime v = Val.date d) ∨ toDatetime v = Val.na := by
  cases v with
  | num n => exact Or.inl ⟨n, rfl⟩
  | date d => exact Or.inl ⟨d, rfl⟩
  | na => exact Or.inr rfl
  | str s =>
      cases h : parseDate s with
      | some d => exact Or.inl ⟨d, by simp [toDatetime, h]⟩
      | none => exact Or.inr (by simp [toDatetime, h])

theorem processCell_idem {ncols dcols : List String} {c : String} {v : Val}
    (hdisj : ∀ s, ncols.contains s = true → dcols.contains s = false)
    (hdate : dcols.contains c = true → toDatetime v ≠ Val.na) :
    processCell ncols dcols c (processCell ncols dcols c v) =
      processCell ncols dcols c v := by
  by_cases hn : ncols.contains c = true
  · have hcm : c ∈ ncols := by simpa using hn
    have hdm : c ∉ dcols := by simpa using hdisj c hn
    have hpc : processCell ncols dcols c v = fillnaZero (toNumeric v) := by
      simp [processCell, hcm, hdm]
    rcases toNumeric_shape v with ⟨n, hv⟩ | hv <;>
      rw [hpc, hv] <;>
      simp [processCell, hcm, hdm, toNumeric, fillnaZero]
  · have hcm : c ∉ ncols := by simpa using hn
    by_cases hd : dcols.contains c = true
    · have hdm : c ∈ dcols := by simpa using hd
      have hpc : processCell ncols dcols c v = fillnaZero (toDatetime v) := by
        simp [processCell, hcm, hdm]
      rcases toDatetime_shape v with ⟨d, hv⟩ | hv
      · rw [hpc, hv]
        simp [processCell, hcm, hdm, toDatetime, fillnaZero]
      · exact absurd hv (hdate hd)
    · have hdm : c ∉ dcols := by simpa using hd
      have hpc : processCell ncols dcols c v = fillnaZero v := by
        simp [processCell, hcm, hdm]
      rw [hpc]
      cases v <;>
        simp [processCell, hcm, hdm, toNumeric, toDatetime, fillnaZero]

theorem processRow_idem (ncols dcols : List String)
    (hdisj : ∀ s, ncols.contains s = true → dcols.contains s = false) :
    ∀ (cols : List String) (row : List Val),
      (∀ p ∈ cols.zip row, dcols.contains p.1 = true → toDatetime p.2 ≠ Val.na) →
      processRow ncols dcols cols (processRow ncols dcols cols row) =
        processRow ncols dcols cols row := by
  intro cols
  induction cols with
  | nil => intro row _; rfl
  | cons c cols ih =>
      intro row hdates
      cases row with
      | nil => rfl
      | cons v row =>
          simp only [processRow, List.zipWith_cons_cons]
          rw [processCell_idem hdisj
              (hdates (c, v) (List.mem_cons_self _ _))]
          have := ih row
            (fun p hp hd => hdates p (List.mem_cons_of_mem _ hp) hd)
          simp only [processRow] at this
          rw [this]

theorem processData_idem (ncols dcols : List String)
    (hdisj : ∀ s, ncols.contains s = true → dcols.contains s = false)
    (t : Table)
    (hdates : ∀ row ∈ t.rows, ∀ p ∈ t.cols.zip row,
      dcols.contains p.1 = true → toDatetime p.2 ≠ Val.na) :
    processData ncols dcols (processData ncols dcols t) =
      processData ncols dcols t := by
  by_cases hemp : t.rows.isEmpty = true
  · have h1 : processData ncols dcols t = t := by
      simp [processData, hemp]
    rw [h1]
    exact h1
  · have hne : t.rows ≠ [] := by
      cases hl : t.rows with
      | nil => rw [hl] at hemp; exact absurd rfl hemp
      | cons a l => exact List.cons_ne_nil a l
    have hemp' : t.rows.isEmpty = false := isEmpty_false_of_ne_nil hne
    have hfix : ∀ x ∈ t.rows.map (processRow ncols dcols t.cols),
        processRow ncols dcols t.cols x = x := by
      intro x hx
      rcases List.mem_map.mp hx with ⟨row, hrow, rfl⟩
      exact processRow_idem ncols dcols hdisj t.cols row (hdates row hrow)
    cases hfind : dcols.find? (fun c => t.cols.contains c) with
    | some dc =>
        have h1 : processData ncols dcols t =
            ⟨t.cols, insSort (rowLe t.cols dc)
              (t.rows.map (processRow ncols dcols t.cols))⟩ := by
          simp only [processData, hemp', Bool.false_eq_true, if_false, hfind]
        have hlen : (insSort (rowLe t.cols dc)
            (t.rows.map (processRow ncols dcols t.cols))).length =
              t.rows.length := by
          rw [(perm_insSort _ _).length_eq, List.length_map]
        have hne2 : insSort (rowLe t.cols dc)
            (t.rows.map (processRow ncols dcols t.cols)) ≠ [] := by
          intro h0
          rw [h0] at hlen
          exact hne (List.length_eq_zero.mp hlen.symm)
        rw [h1]
        simp only [processData, isEmpty_false_of_ne_nil hne2,
          Bool.false_eq_true, if_false, hfind]
        have hmapfix : (insSort (rowLe t.cols dc)
            (t.rows.map (processRow ncols dcols t.cols))).map
              (processRow ncols dcols t.cols) =
            insSort (rowLe t.cols dc)
              (t.rows.map (processRow ncols dcols t.cols)) :=
          map_eq_self_of_fix
            (fun x hx => hfix x ((mem_insSort _).mp hx))
        rw [hmapfix]
        rw [insSort_eq_of_sorted _
          (sorted_insSort _ (rowLe_total _ _) (rowLe_trans _ _) _)]
    | none =>
        have h1 : processData ncols dcols t =
            ⟨t.cols, t.rows.map (processRow ncols dcols t.cols)⟩ := by
          simp only [processData, hemp', Bool.false_eq_true, if_false, hfind]
        have hne2 : t.rows.map (processRow ncols dcols t.cols) ≠ [] := by
          intro h0
          exact hne (List.map_eq_nil_iff.mp h0)
        rw [h1]
        simp only [processData, isEmpty_false_of_ne_nil hne2,
          Bool.false_eq_true, if_false, hfind]
        rw [map_eq_self_of_fix hfix]

theorem numericApp_not_dateApp :
    ∀ s, numericColsApp.contains s = true → dateColsApp.contains s = false := by
  intro s hs
  have hmem : s ∈ numericColsApp := by
    simpa using hs
  fin_cases hmem <;> decide

theorem numericFetch_not_dateFetch :
    ∀ s, numericColsFetch.contains s = true →
      dateColsFetch.contains s = false := by
  intro s hs
  have hmem : s ∈ numericColsFetch := by
    simpa using hs
  fin_cases hmem <;> decide

/-- C2 counterexample: on a one-row table whose only column is the week
date and whose value is missing, one pass of `process_dengue_data` turns
the missing date into the fill value `0`, and a second pass turns that
`0` into the epoch date — so `process(process(t)) ≠ process(t)`. -/
theorem c2_process_idempotent_counterexample :
    process_dengue_data (process_dengue_data c2Table) ≠
      process_dengue_data c2Table := by decide

/-- C2 (amended): the data-processing step is idempotent on every table
whose date-column cells all survive date coercion (no missing or
unparseable week dates); this holds for both variants of
`process_dengue_data`. -/
theorem c2_process_idempotent_on_clean_dates (t : Table) :
    ((∀ row ∈ t.rows, ∀ p ∈ t.cols.zip row,
        dateColsApp.contains p.1 = true → toDatetime p.2 ≠ Val.na) →
      process_dengue_data (process_dengue_data t) = process_dengue_data t) ∧
    ((∀ row ∈ t.rows, ∀ p ∈ t.cols.zip row,
        dateColsFetch.contains p.1 = true → toDatetime p.2 ≠ Val.na) →
      process_dengue_data_fetch (process_dengue_data_fetch t) =
        process_dengue_data_fetch t) := by
  constructor
  · intro h
    exact processData_idem _ _ numericApp_not_dateApp t h
  · intro h
    exact processData_idem _ _ numericFetch_not_dateFetch t h

/-- Witness for the amended C2 at a concrete two-row table with parseable
dates. -/
theorem c2_process_idempotent_witness :
    (∀ row ∈ c2CleanTable.rows, ∀ p ∈ c2CleanTable.cols.zip row,
        dateColsApp.contains p.1 = true → toDatetime p.2 ≠ Val.na) ∧
    process_dengue_data (process_dengue_data c2CleanTable) =
      process_dengue_data c2CleanTable :=
  ⟨by decide,
   (c2_process_idempotent_on_clean_dates c2CleanTable).1 (by decide)⟩

theorem processData_rows_perm (ncols dcols : List String) (t : Table) :
    (processData ncols dcols t).rows.Perm
      (t.rows.map (processRow ncols dcols t.cols)) := by
  by_cases hemp : t.rows.isEmpty = true
  · have hnil : t.rows = [] := by
      cases hl : t.rows with
      | nil => rfl
      | cons a l => rw [hl] at hemp; exact absurd hemp (by simp)
    simp [processData, hemp, hnil]
  · have hne : t.rows ≠ [] := by
      intro h0
      exact hemp (by simp [h0])
    have hemp' : t.rows.isEmpty = false := isEmpty_false_of_ne_nil hne
    cases hfind : dcols.find? (fun c => t.cols.contains c) with
    | some dc =>
        simp only [processData, hemp', Bool.false_eq_true, if_false, hfind]
        exact perm_insSort _ _
    | none =>
        simp only [processData, hemp', Bool.false_eq_true, if_false, hfind]
        exact List.Perm.refl _

theorem getCol_zipWith (f : String → Val → Val) :
    ∀ (cols : List String) (row : List Val) (c : String),
      row.length = cols.length → cols.contains c = true →
      getCol cols (List.zipWith f cols row) c = f c (getCol cols row c) := by
  intro cols
  induction cols with
  | nil =>
      intro row c _ hc
      simp at hc
  | cons c0 cols ih =>
      intro row c hlen hc
      cases row with
      | nil => simp at hlen
      | cons v row =>
          simp only [List.zipWith_cons_cons]
          by_cases he : (c0 == c) = true
          · have hc0 : c0 = c := by simpa using he
            subst hc0
            simp [getCol]
          · have hne : (c0 == c) = false := by simpa using he
            have hskip : ∀ (y : Val) (ys : List Val),
                getCol (c0 :: cols) (y :: ys) c = getCol cols ys c := by
              intro y ys
              simp [getCol, hne]
            rw [hskip, hskip]
            have hmem : c ∈ cols := by
              have hm : c ∈ c0 :: cols := by simpa using hc
              rcases List.mem_cons.mp hm with rfl | hm'
              · exact absurd (beq_self_eq_true c) he
              · exact hm'
            exact ih row c (by simpa using hlen) (by simpa using hmem)

theorem processData_numeric_cells (ncols dcols : List String)
    (hdisj : ∀ s, ncols.contains s = true → dcols.contains s = false)
    (t : Table) (hW : ∀ row ∈ t.rows, row.length = t.cols.length)
    (c : String) (hc : ncols.contains c = true)
    (hct : t.cols.contains c = true) :
    (∀ r ∈ (processData ncols dcols t).rows,
      ∃ n : Int, getCol t.cols r c = Val.num n) ∧
    (∀ row ∈ t.rows,
      processRow ncols dcols t.cols row ∈ (processData ncols dcols t).rows ∧
      (toNumeric (getCol t.cols row c) = Val.na →
        getCol t.cols (processRow ncols dcols t.cols row) c = Val.num 0)) := by
  have hcell : ∀ v, processCell ncols dcols c v = fillnaZero (toNumeric v) := by
    intro v
    have hcm : c ∈ ncols := by simpa using hc
    have hdm : c ∉ dcols := by simpa using hdisj c hc
    simp [processCell, hcm, hdm]
  have hgc : ∀ row ∈ t.rows,
      getCol t.cols (processRow ncols dcols t.cols row) c =
        fillnaZero (toNumeric (getCol t.cols row c)) := by
    intro row hrow
    rw [processRow, getCol_zipWith _ t.cols row c (hW row hrow) hct, hcell]
  constructor
  · intro r hr
    have hmem : r ∈ t.rows.map (processRow ncols dcols t.cols) :=
      (processData_rows_perm ncols dcols t).mem_iff.mp hr
    rcases List.mem_map.mp hmem with ⟨row, hrow, rfl⟩
    rw [hgc row hrow]
    rcases toNumeric_shape (getCol t.cols row c) with ⟨n, hv⟩ | hv
    · exact ⟨n, by rw [hv]; rfl⟩
    · exact ⟨0, by rw [hv]; rfl⟩
  · intro row hrow
    constructor
    · exact (processData_rows_perm ncols dcols t).mem_iff.mpr
        (List.mem_map.mpr ⟨row, hrow, rfl⟩)
    · intro hna
      rw [hgc row hrow, hna]
      rfl

/-- C5: for every column of the fixed numeric list that the input table
has, every cell of the processed table in that column is numeric, every
input row's processed image is a row of the processed table, and every
raw cell that fails numeric coercion (missing values included) is `0`
in that image; this holds for both variants of `process_dengue_data`.
(The rectangularity hypothesis says each row has one cell per column.) -/
theorem c5_numeric_coercion_fill (t : Table)
    (hW : ∀ row ∈ t.rows, row.length = t.cols.length) :
    (∀ c, numericColsApp.contains c = true → t.cols.contains c = true →
      (∀ r ∈ (process_dengue_data t).rows,
        ∃ n : Int, getCol t.cols r c = Val.num n) ∧
      (∀ row ∈ t.rows,
        processRow numericColsApp dateColsApp t.cols row ∈
          (process_dengue_data t).rows ∧
        (toNumeric (getCol t.cols row c) = Val.na →
          getCol t.cols
            (processRow numericColsApp dateColsApp t.cols row) c =
            Val.num 0))) ∧
    (∀ c, numericColsFetch.contains c = true → t.cols.contains c = true →
      (∀ r ∈ (process_dengue_data_fetch t).rows,
        ∃ n : Int, getCol t.cols r c = Val.num n) ∧
      (∀ row ∈ t.rows,
        processRow numericColsFetch dateColsFetch t.cols row ∈
          (process_dengue_data_fetch t).rows ∧
        (toNumeric (getCol t.cols row c) = Val.na →
          getCol t.cols
            (processRow numericColsFetch dateColsFetch t.cols row) c =
            Val.num 0))) :=
  ⟨fun c hc hct =>
      processData_numeric_cells _ _ numericApp_not_dateApp t hW c hc hct,
   fun c hc hct =>
      processData_numeric_cells _ _ numericFetch_not_dateFetch t hW c hc hct⟩

/-- Witness for C5 at a one-row table whose `casos` value is the
uncoercible string `"abc"`. -/
theorem c5_numeric_coercion_fill_witness :
    (∀ row ∈ c5Table.rows, row.length = c5Table.cols.length) ∧
    ((∀ r ∈ (process_dengue_data c5Table).rows,
        ∃ n : Int, getCol c5Table.cols r "casos" = Val.num n) ∧
     (∀ row ∈ c5Table.rows,
        processRow numericColsApp dateColsApp c5Table.cols row ∈
          (process_dengue_data c5Table).rows ∧
        (toNumeric (getCol c5Table.cols row "casos") = Val.na →
          getCol c5Table.cols
            (processRow numericColsApp dateColsApp c5Table.cols row)
            "casos" = Val.num 0))) :=
  ⟨by decide,
   (c5_numeric_coercion_fill c5Table (by decide)).1 "casos"
     (by decide) (by decide)⟩

/-- C6: `process_dengue_data` sorts its output ascending by `data_iniSE`
when that column exists, else by `data_ini_SE` when that exists; when
neither exists the rows are only transformed cell-wise, in their original
order. -/
theorem c6_process_sorts_by_week_date (t : Table) :
    (t.cols.contains "data_iniSE" = true →
      SortedBy (rowLe t.cols "data_iniSE") (process_dengue_data t).rows) ∧
    (t.cols.contains "data_iniSE" = false →
      t.cols.contains "data_ini_SE" = true →
      SortedBy (rowLe t.cols "data_ini_SE") (process_dengue_data t).rows) ∧
    (t.cols.contains "data_iniSE" = false →
      t.cols.contains "data_ini_SE" = false →
      (process_dengue_data t).rows =
        t.rows.map (processRow numericColsApp dateColsApp t.cols)) := by
  by_cases hemp : t.rows.isEmpty = true
  · have hnil : t.rows = [] := by
      cases hl : t.rows with
      | nil => rfl
      | cons a l => rw [hl] at hemp; exact absurd hemp (by simp)
    have hp : process_dengue_data t = t := by
      simp [process_dengue_data, processData, hemp]
    refine ⟨?_, ?_, ?_⟩
    · intro _
      rw [hp, hnil]
      exact List.Pairwise.nil
    · intro _ _
      rw [hp, hnil]
      exact List.Pairwise.nil
    · intro _ _
      rw [hp, hnil]
      rfl
  · have hne : t.rows ≠ [] := by
      intro h0
      exact hemp (by simp [h0])
    have hemp' : t.rows.isEmpty = false := isEmpty_false_of_ne_nil hne
    refine ⟨?_, ?_, ?_⟩
    · intro h1
      have hfind : dateColsApp.find? (fun c => t.cols.contains c) =
          some "data_iniSE" := List.find?_cons_of_pos _ h1
      have hp : process_dengue_data t =
          ⟨t.cols, insSort (rowLe t.cols "data_iniSE")
            (t.rows.map (processRow numericColsApp dateColsApp t.cols))⟩ := by
        simp only [process_dengue_data, processData, hemp',
          Bool.false_eq_true, if_false, hfind]
      rw [hp]
      exact sorted_insSort _ (rowLe_total _ _) (rowLe_trans _ _) _
    · intro h1 h2
      have hfind : dateColsApp.find? (fun c => t.cols.contains c) =
          some "data_ini_SE" := by
        show List.find? _ ("data_iniSE" :: ["data_ini_SE"]) = _
        rw [List.find?_cons_of_neg _ (by rw [h1]; simp),
          List.find?_cons_of_pos _ h2]
      have hp : process_dengue_data t =
          ⟨t.cols, insSort (rowLe t.cols "data_ini_SE")
            (t.rows.map (processRow numericColsApp dateColsApp t.cols))⟩ := by
        simp only [process_dengue_data, processData, hemp',
          Bool.false_eq_true, if_false, hfind]
      rw [hp]
      exact sorted_insSort _ (rowLe_total _ _) (rowLe_trans _ _) _
    · intro h1 h2
      have hfind : dateColsApp.find? (fun c => t.cols.contains c) = none := by
        show List.find? _ ("data_iniSE" :: ["data_ini_SE"]) = _
        rw [List.find?_cons_of_neg _ (by rw [h1]; simp),
          List.find?_cons_of_neg _ (by rw [h2]; simp)]
        rfl
      simp only [process_dengue_data, processData, hemp',
        Bool.false_eq_true, if_false, hfind]

/-- Witness for C6 at a two-row table whose dates arrive out of order. -/
theorem c6_process_sorts_by_week_date_witness :
    c6Table.cols.contains "data_iniSE" = true ∧
    SortedBy (rowLe c6Table.cols "data_iniSE")
      (process_dengue_data c6Table).rows :=
  ⟨by decide, (c6_process_sorts_by_week_date c6Table).1 (by decide)⟩

/-- C8 counterexample: the display names are Portuguese — level 1 maps to
`("Verde", "#2ecc71")`, not to `("Green", "#2ecc71")` as the claim
states (and out-of-range levels in the distribution view are labelled
`"Nível <n>"`, not `"Unknown"`). -/
theorem c8_alert_mapping_counterexample :
    get_alert_level_info 1 ≠ ("Green", "#2ecc71") ∧
    nivelLabel (Val.num 9) ≠ "Unknown" := by decide

/-- C8 (amended): the alert-level mapping assigns
1 ↦ ("Verde", "#2ecc71"), 2 ↦ ("Amarelo", "#f39c12"),
3 ↦ ("Laranja", "#e67e22"), 4 ↦ ("Vermelho", "#e74c3c"), and any other
integer to the name "Desconhecido" with colour "#95a5a6" in the
single-record views of both apps; in the distribution view an
out-of-range level keeps the fallback colour "#95a5a6" but is labelled
"Nível <n>" rather than with the unknown name. -/
theorem c8_alert_mapping (level : Int) :
    get_alert_level_info level =
      (nivel_name_simple level, nivel_color_simple level) ∧
    (get_alert_level_info 1 = ("Verde", "#2ecc71") ∧
     get_alert_level_info 2 = ("Amarelo", "#f39c12") ∧
     get_alert_level_info 3 = ("Laranja", "#e67e22") ∧
     get_alert_level_info 4 = ("Vermelho", "#e74c3c")) ∧
    (level ≠ 1 → level ≠ 2 → level ≠ 3 → level ≠ 4 →
      get_alert_level_info level = ("Desconhecido", "#95a5a6") ∧
      nivelColor (Val.num level) = "#95a5a6" ∧
      nivelLabel (Val.num level) = "Nível " ++ toString level) := by
  refine ⟨?_, by decide, ?_⟩
  · unfold get_alert_level_info nivel_name_simple nivel_color_simple
    split_ifs <;> rfl
  · intro h1 h2 h3 h4
    refine ⟨?_, ?_, ?_⟩
    · simp [get_alert_level_info, h1, h2, h3, h4]
    · simp [nivelColor, h1, h2, h3, h4]
    · simp [nivelLabel, h1, h2, h3, h4]

/-- Witness for the amended C8 at the out-of-range level 9. -/
theorem c8_alert_mapping_witness :
    get_alert_level_info 9 = ("Desconhecido", "#95a5a6") ∧
    nivelColor (Val.num 9) = "#95a5a6" ∧
    nivelLabel (Val.num 9) = "Nível " ++ toString (9 : Int) :=
  (c8_alert_mapping 9).2.2 (by decide) (by decide) (by decide) (by decide)

theorem sum_map_add (f g : α → Nat) (l : List α) :
    (l.map (fun x => f x + g x)).sum = (l.map f).sum + (l.map g).sum := by
  induction l with
  | nil => rfl
  | cons a l ih =>
      simp only [List.map_cons, List.sum_cons, ih]
      omega

theorem sum_indicator [DecidableEq α] (a : α) {l : List α}
    (h : l.Nodup) :
    (l.map (fun b => if a = b then 1 else 0)).sum =
      if a ∈ l then 1 else 0 := by
  induction l with
  | nil => rfl
  | cons b l ih =>
      rcases List.nodup_cons.mp h with ⟨hb, hl⟩
      simp only [List.map_cons, List.sum_cons]
      by_cases hab : a = b
      · subst hab
        rw [if_pos rfl, ih hl, if_neg hb, if_pos (List.mem_cons_self a l)]
      · rw [if_neg hab, ih hl]
        by_cases hal : a ∈ l
        · rw [if_pos hal, if_pos (List.mem_cons_of_mem b hal)]
        · rw [if_neg hal, if_neg (by
            intro hmem
            rcases List.mem_cons.mp hmem with rfl | hmem
            · exact hab rfl
            · exact hal hmem)]

theorem sum_count_dedup [DecidableEq α] (l : List α) :
    (l.dedup.map (fun a => l.count a)).sum = l.length := by
  induction l with
  | nil => rfl
  | cons a l ih =>
      have hcount : ∀ b, (a :: l).count b = l.count b + if b = a then 1 else 0 := by
        intro b
        rw [List.count_cons]
        by_cases hab : b = a
        · subst hab
          simp
        · simp [beq_iff_eq, hab, Ne.symm hab]
      by_cases ha : a ∈ l
      · rw [List.dedup_cons_of_mem ha]
        have h1 : l.dedup.map (fun b => (a :: l).count b) =
            l.dedup.map (fun b => l.count b + if b = a then 1 else 0) :=
          List.map_congr_left (fun b _ => hcount b)
        rw [h1, sum_map_add, ih]
        have h2 : (l.dedup.map (fun b => if b = a then 1 else 0)).sum = 1 := by
          have heq : l.dedup.map (fun b => if b = a then 1 else 0) =
              l.dedup.map (fun b => if a = b then 1 else 0) :=
            List.map_congr_left (fun b _ => by
              by_cases hab : a = b
              · subst hab
                rfl
              · rw [if_neg (fun h => hab h.symm), if_neg hab])
          rw [heq, sum_indicator a l.nodup_dedup,
            if_pos (List.mem_dedup.mpr ha)]
        rw [h2]
        simp [List.length_cons]
      · rw [List.dedup_cons_of_not_mem ha]
        simp only [List.map_cons, List.sum_cons]
        have hhead : (a :: l).count a = l.count a + 1 := by
          rw [hcount a, if_pos rfl]
        have hzero : l.count a = 0 := List.count_eq_zero.mpr ha
        have htail : l.dedup.map (fun b => (a :: l).count b) =
            l.dedup.map (fun b => l.count b) :=
          List.map_congr_left (fun b hb => by
            rw [hcount b, if_neg (by
              intro hba
              exact ha (hba ▸ List.mem_dedup.mp hb)), Nat.add_zero])
        rw [hhead, hzero, htail, ih]
        simp [List.length_cons]
        omega

theorem value_counts_sum (vs : List Val) :
    ((value_counts vs).map (fun p => p.2)).sum =
      (vs.filter (fun v => !(v == Val.na))).length := by
  unfold value_counts
  rw [List.map_map]
  have hperm : ((insSort valLe
      (vs.filter (fun v => !(v == Val.na))).dedup).map
        ((fun p : Val × Nat => p.2) ∘ (fun v => (v, vs.count v)))).Perm
      (((vs.filter (fun v => !(v == Val.na))).dedup).map
        ((fun p : Val × Nat => p.2) ∘ (fun v => (v, vs.count v)))) :=
    (perm_insSort _ _).map _
  rw [hperm.sum_eq]
  have hcong : ((vs.filter (fun v => !(v == Val.na))).dedup).map
      ((fun p : Val × Nat => p.2) ∘ (fun v => (v, vs.count v))) =
      ((vs.filter (fun v => !(v == Val.na))).dedup).map
        (fun v => (vs.filter (fun u => !(u == Val.na))).count v) := by
    apply List.map_congr_left
    intro v hv
    show vs.count v = (vs.filter (fun u => !(u == Val.na))).count v
    have hvna : (!(v == Val.na)) = true :=
      (List.mem_filter.mp (List.mem_dedup.mp hv)).2
    exact (@List.count_filter Val _ _ (fun u => !(u == Val.na)) v vs hvna).symm
  rw [hcong, sum_count_dedup]

/-- C9 counterexample: on a one-row table whose alert level is missing,
the snapshot has one row but `value_counts` drops the missing level, so
the distribution is empty and its counts sum to 0 ≠ 1. -/
theorem c9_alert_counts_sum_counterexample :
    latestSnapshot c9Table = some [[Val.date 1, Val.num 100, Val.na]] ∧
    create_alert_distribution c9Table = some [] ∧
    (([] : List (Val × String × String × Nat)).map
      (fun p => p.2.2.2)).sum = 0 ∧
    [[Val.date 1, Val.num 100, Val.na]].length = 1 := by decide

/-- C9 (amended): on a nonempty table with an alert-level column and a
well-formed snapshot, the per-level counts of the alert distribution sum
to the number of snapshot rows whose alert level is non-missing — hence
to the full snapshot size whenever no snapshot row has a missing level
(`value_counts` silently drops missing levels). -/
theorem c9_alert_counts_sum (t : Table) (snap : List (List Val))
    (hsnap : latestSnapshot t = some snap)
    (hemp : t.rows.isEmpty = false)
    (hniv : t.cols.contains "nivel" = true) :
    create_alert_distribution t =
      some ((value_counts (snap.map (fun r => getCol t.cols r "nivel"))).map
        (fun p => (p.1, nivelLabel p.1, nivelColor p.1, p.2))) ∧
    ((value_counts (snap.map (fun r => getCol t.cols r "nivel"))).map
        (fun p => p.2)).sum =
      ((snap.map (fun r => getCol t.cols r "nivel")).filter
        (fun v => !(v == Val.na))).length ∧
    ((∀ r ∈ snap, getCol t.cols r "nivel" ≠ Val.na) →
      ((value_counts (snap.map (fun r => getCol t.cols r "nivel"))).map
        (fun p => p.2)).sum = snap.length) := by
  refine ⟨?_, value_counts_sum _, ?_⟩
  · simp only [create_alert_distribution, hemp, Bool.false_eq_true,
      if_false, hniv, hsnap]
    simp
  · intro hall
    rw [value_counts_sum]
    have hfit : (snap.map (fun r => getCol t.cols r "nivel")).filter
        (fun v => !(v == Val.na)) =
        snap.map (fun r => getCol t.cols r "nivel") := by
      apply List.filter_eq_self.mpr
      intro v hv
      rcases List.mem_map.mp hv with ⟨r, hr, rfl⟩
      simpa using hall r hr
    rw [hfit, List.length_map]

/-- Witness for the amended C9 at a three-row, two-municipality table
with no missing alert levels: counts sum to the snapshot size 2. -/
theorem c9_alert_counts_sum_witness :
    latestSnapshot c9CleanTable =
      some [[Val.date 1, Val.num 200, Val.num 3],
            [Val.date 2, Val.num 100, Val.num 3]] ∧
    ((value_counts
        (([[Val.date 1, Val.num 200, Val.num 3],
           [Val.date 2, Val.num 100, Val.num 3]]).map
          (fun r => getCol c9CleanTable.cols r "nivel"))).map
      (fun p => p.2)).sum =
      ([[Val.date 1, Val.num 200, Val.num 3],
        [Val.date 2, Val.num 100, Val.num 3]]).length :=
  ⟨by decide,
   (c9_alert_counts_sum c9CleanTable
      [[Val.date 1, Val.num 200, Val.num 3],
       [Val.date 2, Val.num 100, Val.num 3]]
      (by decide) (by decide) (by decide)).2.2 (by decide)⟩

theorem listToTable_length (es : List Json) :
    (listToTable es).rows.length = es.length := by
  unfold listToTable
  split_ifs <;> simp

/-- C7 counterexample: the `app.py` normalizer wraps an unrecognized
shape (here the bare number `5`) as a single record, producing a one-row
table instead of an empty one. -/
theorem c7_normalizer_counterexample :
    normalize_app (Json.num 5) ≠ emptyTable ∧
    (normalize_app (Json.num 5)).rows.length = 1 := by
  constructor
  · intro h
    have h1 : (normalize_app (Json.num 5)).rows.length = 1 := rfl
    rw [h] at h1
    exact absurd h1 (by decide)
  · rfl

/-- C7 (amended): both normalizers map a JSON array to one row per
element and a single object to a one-row table; an unrecognized shape
yields the empty table in the simplified variant, but in the `app.py`
variant it is wrapped as a single object and yields a one-row table. -/
theorem c7_normalizer_shapes :
    (∀ es : List Json,
      (normalize_simple (Json.arr es)).rows.length = es.length ∧
      (normalize_app (Json.arr es)).rows.length = es.length) ∧
    (∀ kvs : List (String × Json),
      (normalize_simple (Json.obj kvs)).rows.length = 1 ∧
      (normalize_app (Json.obj kvs)).rows.length = 1) ∧
    (∀ j : Json, isArr j = false → isObj j = false →
      normalize_simple j = emptyTable ∧
      (normalize_app j).rows.length = 1) := by
  refine ⟨?_, ?_, ?_⟩
  · intro es
    exact ⟨listToTable_length es, listToTable_length es⟩
  · intro kvs
    exact ⟨listToTable_length _, listToTable_length _⟩
  · intro j ha ho
    cases j with
    | null => exact ⟨rfl, rfl⟩
    | bool b => exact ⟨rfl, rfl⟩
    | num n => exact ⟨rfl, rfl⟩
    | str s => exact ⟨rfl, rfl⟩
    | arr es => simp [isArr] at ha
    | obj kvs => simp [isObj] at ho

/-- Witness for the amended C7 at the unrecognized shape `"oops"`. -/
theorem c7_normalizer_shapes_witness :
    isArr (Json.str "oops") = false ∧ isObj (Json.str "oops") = false ∧
    (normalize_simple (Json.str "oops") = emptyTable ∧
     (normalize_app (Json.str "oops")).rows.length = 1) :=
  ⟨by decide, by decide,
   c7_normalizer_shapes.2.2 (Json.str "oops") (by decide) (by decide)⟩

theorem mem_pagesFrom2 {p last : Nat} :
    p ∈ pagesFrom2 last ↔ 2 ≤ p ∧ p ≤ last := by
  unfold pagesFrom2
  rw [List.mem_range']
  constructor
  · rintro ⟨i, hi, rfl⟩
    omega
  · intro h
    exact ⟨p - 2, by omega, by omega⟩

theorem fetch_pages_ok (net : Nat → Except NetErr ApiResponse)
    (f : Nat → ApiResponse) :
    ∀ (ps : List Nat) (acc : List Json),
      (∀ p ∈ ps, net p = Except.ok (f p)) →
      fetch_pages net ps acc =
        Except.ok (acc ++ (ps.map (fun p => (f p).items)).flatten) := by
  intro ps
  induction ps with
  | nil =>
      intro acc _
      simp [fetch_pages]
  | cons p ps ih =>
      intro acc h
      have hp := h p (List.mem_cons_self _ _)
      simp only [fetch_pages, hp]
      rw [ih (acc ++ (f p).items)
        (fun q hq => h q (List.mem_cons_of_mem _ hq))]
      simp [List.append_assoc]

/-- C3: when page 1 succeeds, the bounded fetcher of `app.py` requests
exactly pages `2 .. min(total_pages, 5)` and the unbounded fetcher of
`fetch_data.py` requests pages `2 .. total_pages`, and each returns all
pages' items concatenated in page order. -/
theorem c3_pagination (net : Nat → Except NetErr ApiResponse)
    (r1 : ApiResponse) (f : Nat → ApiResponse)
    (h1 : net 1 = Except.ok r1) :
    ((∀ p, 2 ≤ p → p ≤ min r1.total_pages 5 → net p = Except.ok (f p)) →
      all_items_app net = Except.ok (r1.items ++
        ((pagesFrom2 (min r1.total_pages 5)).map
          (fun p => (f p).items)).flatten)) ∧
    ((∀ p, 2 ≤ p → p ≤ r1.total_pages → net p = Except.ok (f p)) →
      all_items_fetch net = Except.ok (r1.items ++
        ((pagesFrom2 r1.total_pages).map
          (fun p => (f p).items)).flatten)) := by
  constructor
  · intro h
    simp only [all_items_app, h1]
    exact fetch_pages_ok net f _ r1.items
      (fun p hp => h p (mem_pagesFrom2.mp hp).1 (mem_pagesFrom2.mp hp).2)
  · intro h
    simp only [all_items_fetch, h1]
    exact fetch_pages_ok net f _ r1.items
      (fun p hp => h p (mem_pagesFrom2.mp hp).1 (mem_pagesFrom2.mp hp).2)

/-- Witness for C3 on a three-page network: the bounded fetch gathers
the items of pages 1, 2 and 3 in page order. -/
theorem c3_pagination_witness :
    all_items_app c3Net = Except.ok
      (([Json.num 1] : List Json) ++
        ((pagesFrom2 (min 3 5)).map
          (fun p =>
            ((⟨[Json.num (Int.ofNat p)], 3⟩ : ApiResponse)).items)).flatten) ∧
    all_items_app c3Net =
      Except.ok [Json.num 1, Json.num 2, Json.num 3] :=
  ⟨(c3_pagination c3Net ⟨[Json.num 1], 3⟩
      (fun p => ⟨[Json.num (Int.ofNat p)], 3⟩) rfl).1
      (fun _ _ _ => rfl),
   rfl⟩

theorem fetch_pages_error (net : Nat → Except NetErr ApiResponse)
    (e : NetErr) :
    ∀ (l₁ : List Nat) (q : Nat) (l₂ : List Nat) (acc : List Json),
      (∀ p ∈ l₁, ∃ rp, net p = Except.ok rp) →
      net q = Except.error e →
      fetch_pages net (l₁ ++ q :: l₂) acc = Except.error e := by
  intro l₁
  induction l₁ with
  | nil =>
      intro q l₂ acc _ hq
      simp [fetch_pages, hq]
  | cons p l₁ ih =>
      intro q l₂ acc h hq
      rcases h p (List.mem_cons_self _ _) with ⟨rp, hp⟩
      simp only [List.cons_append, fetch_pages, hp]
      exact ih q l₂ _ (fun x hx => h x (List.mem_cons_of_mem _ hx)) hq

/-- C4: a failure of any requested page — page 1, or any later page in
the requested range, with the earlier pages succeeding — aborts the
whole fetch: the gathered-items computation surfaces exactly that error,
the partial pages are discarded, and the table-level fetchers (which
catch the error) return the empty dataframe. -/
theorem c4_fetch_failure (net : Nat → Except NetErr ApiResponse)
    (e : NetErr) :
    (net 1 = Except.error e →
      all_items_app net = Except.error e ∧
      all_items_fetch net = Except.error e ∧
      fetch_infodengue_state_data net = emptyTable ∧
      fetch_infodengue_data net = emptyTable) ∧
    (∀ (r1 : ApiResponse) (l₁ : List Nat) (q : Nat) (l₂ : List Nat),
      net 1 = Except.ok r1 →
      pagesFrom2 (min r1.total_pages 5) = l₁ ++ q :: l₂ →
      (∀ p ∈ l₁, ∃ rp, net p = Except.ok rp) →
      net q = Except.error e →
      all_items_app net = Except.error e ∧
      fetch_infodengue_state_data net = emptyTable) ∧
    (∀ (r1 : ApiResponse) (l₁ : List Nat) (q : Nat) (l₂ : List Nat),
      net 1 = Except.ok r1 →
      pagesFrom2 r1.total_pages = l₁ ++ q :: l₂ →
      (∀ p ∈ l₁, ∃ rp, net p = Except.ok rp) →
      net q = Except.error e →
      all_items_fetch net = Except.error e ∧
      fetch_infodengue_data net = emptyTable) := by
  refine ⟨?_, ?_, ?_⟩
  · intro h1
    have ha : all_items_app net = Except.error e := by
      simp only [all_items_app, h1]
    have hf : all_items_fetch net = Except.error e := by
      simp only [all_items_fetch, h1]
    refine ⟨ha, hf, ?_, ?_⟩
    · simp only [fetch_infodengue_state_data, ha]
    · simp only [fetch_infodengue_data, hf]
  · intro r1 l₁ q l₂ h1 hsplit hok hq
    have ha : all_items_app net = Except.error e := by
      simp only [all_items_app, h1, hsplit]
      exact fetch_pages_error net e l₁ q l₂ r1.items hok hq
    exact ⟨ha, by simp only [fetch_infodengue_state_data, ha]⟩
  · intro r1 l₁ q l₂ h1 hsplit hok hq
    have hf : all_items_fetch net = Except.error e := by
      simp only [all_items_fetch, h1, hsplit]
      exact fetch_pages_error net e l₁ q l₂ r1.items hok hq
    exact ⟨hf, by simp only [fetch_infodengue_data, hf]⟩

/-- Witness for C4 on a network whose page 2 times out: the bounded
fetch surfaces the timeout and the table-level fetch returns the empty
dataframe, discarding page 1's item. -/
theorem c4_fetch_failure_witness :
    all_items_app c4Net = Except.error NetErr.timeout ∧
    fetch_infodengue_state_data c4Net = emptyTable :=
  (c4_fetch_failure c4Net NetErr.timeout).2.1 ⟨[Json.num 1], 3⟩ [] 2 [3]
    rfl (by decide) (fun p hp => absurd hp (List.not_mem_nil p)) rfl

theorem getCol_cons_self {c0 c : String} (he : (c0 == c) = true)
    (y : Val) (ys : List Val) (cols : List String) :
    getCol (c0 :: cols) (y :: ys) c = y := by
  simp [getCol, he]

theorem getCol_cons_ne {c0 c : String} (hne : (c0 == c) = false)
    (y : Val) (ys : List Val) (cols : List String) :
    getCol (c0 :: cols) (y :: ys) c = getCol cols ys c := by
  simp [getCol, hne]

theorem getCol_not_mem {c : String} (cols : List String) (row : List Val)
    (hc : c ∉ cols) : getCol cols row c = Val.na := by
  unfold getCol
  rw [List.find?_eq_none.mpr ?hnone]
  case hnone =>
    intro x hx
    obtain ⟨x1, x2⟩ := x
    have hx1 : x1 ∈ cols := (List.of_mem_zip hx).1
    simp only [Bool.not_eq_true, beq_eq_false_iff_ne, ne_eq]
    intro he
    exact hc (he ▸ hx1)

theorem getCol_map_self (f : String → Val) :
    ∀ (cols : List String) (c : String), c ∈ cols →
      getCol cols (cols.map f) c = f c := by
  intro cols
  induction cols with
  | nil =>
      intro c hc
      exact absurd hc (List.not_mem_nil c)
  | cons c0 cols ih =>
      intro c hc
      by_cases he : (c0 == c) = true
      · rw [List.map_cons, getCol_cons_self he]
        rw [beq_iff_eq.mp he]
      · have hne : (c0 == c) = false := by simpa using he
        rw [List.map_cons, getCol_cons_ne hne]
        rcases List.mem_cons.mp hc with rfl | hm
        · exact absurd (beq_self_eq_true c) he
        · exact ih c hm

theorem getCol_append_single :
    ∀ (cols : List String) (row : List Val) (c : String) (v : Val)
      (c' : String), row.length = cols.length →
      getCol (cols ++ [c]) (row ++ [v]) c' =
        if c' ∈ cols then getCol cols row c'
        else if (c == c') = true then v else Val.na := by
  intro cols
  induction cols with
  | nil =>
      intro row c v c' hlen
      have hrow : row = [] := List.length_eq_zero.mp hlen
      subst hrow
      simp only [List.nil_append, List.not_mem_nil, if_false]
      by_cases he : (c == c') = true
      · rw [if_pos he, getCol_cons_self he]
      · have hne : (c == c') = false := by simpa using he
        rw [if_neg (by simp [he]), getCol_cons_ne hne]
        rfl
  | cons c0 cols ih =>
      intro row c v c' hlen
      cases row with
      | nil => simp at hlen
      | cons y ys =>
          simp only [List.cons_append]
          by_cases he : (c0 == c') = true
          · rw [getCol_cons_self he, if_pos (by
              rw [← beq_iff_eq.mp he]
              exact List.mem_cons_self c0 cols),
              getCol_cons_self he]
          · have hne : (c0 == c') = false := by simpa using he
            rw [getCol_cons_ne hne, getCol_cons_ne hne,
              ih ys c v c' (by simpa using hlen)]
            by_cases hm : c' ∈ cols
            · rw [if_pos hm, if_pos (List.mem_cons_of_mem c0 hm)]
            · have hnotc : c' ∉ c0 :: cols := by
                intro hmem
                rcases List.mem_cons.mp hmem with rfl | hmem'
                · exact absurd (beq_self_eq_true c') he
                · exact hm hmem'
              rw [if_neg hm, if_neg hnotc]

theorem setCol_mem_cols (t : Table) (c : String) (v : Val) :
    c ∈ (setCol t c v).cols := by
  unfold setCol
  by_cases hc : t.cols.contains c = true
  · simp only [hc, if_true]
    simpa using hc
  · have hc' : t.cols.contains c = false := by simpa using hc
    simp only [hc', Bool.false_eq_true, if_false]
    exact List.mem_append_right _ (List.mem_cons_self c [])

theorem setCol_mem_cols_of_mem (t : Table) (c c' : String) (v : Val)
    (h : c' ∈ t.cols) : c' ∈ (setCol t c v).cols := by
  unfold setCol
  by_cases hc : t.cols.contains c = true
  · simp only [hc, if_true]
    exact h
  · have hc' : t.cols.contains c = false := by simpa using hc
    simp only [hc', Bool.false_eq_true, if_false]
    exact List.mem_append_left _ h

theorem setCol_rows_length (t : Table) (c : String) (v : Val) :
    (setCol t c v).rows.length = t.rows.length := by
  unfold setCol
  by_cases hc : c ∈ t.cols
  · simp [hc]
  · simp [hc]

theorem setCol_rect (t : Table) (c : String) (v : Val)
    (hW : ∀ row ∈ t.rows, row.length = t.cols.length) :
    ∀ r' ∈ (setCol t c v).rows, r'.length = (setCol t c v).cols.length := by
  intro r' hr'
  unfold setCol at hr' ⊢
  by_cases hc : t.cols.contains c = true
  · simp only [hc, if_true] at hr' ⊢
    rcases List.mem_map.mp hr' with ⟨r, hr, rfl⟩
    rw [List.length_zipWith, hW r hr, Nat.min_self]
  · have hc' : t.cols.contains c = false := by simpa using hc
    simp only [hc', Bool.false_eq_true, if_false] at hr' ⊢
    rcases List.mem_map.mp hr' with ⟨r, hr, rfl⟩
    simp [hW r hr]

theorem getCol_setCol_self (t : Table) (c : String) (v : Val)
    (hW : ∀ row ∈ t.rows, row.length = t.cols.length) :
    ∀ r' ∈ (setCol t c v).rows, getCol (setCol t c v).cols r' c = v := by
  intro r' hr'
  unfold setCol at hr' ⊢
  by_cases hc : t.cols.contains c = true
  · simp only [hc, if_true] at hr' ⊢
    rcases List.mem_map.mp hr' with ⟨r, hr, rfl⟩
    rw [getCol_zipWith _ t.cols r c (hW r hr) hc]
    rw [if_pos rfl]
  · have hc' : t.cols.contains c = false := by simpa using hc
    simp only [hc', Bool.false_eq_true, if_false] at hr' ⊢
    rcases List.mem_map.mp hr' with ⟨r, hr, rfl⟩
    rw [getCol_append_single t.cols r c v c (hW r hr),
      if_neg (by simpa using hc), if_pos (beq_self_eq_true c)]

theorem getCol_setCol_other (t : Table) (c c' : String) (v : Val)
    (hW : ∀ row ∈ t.rows, row.length = t.cols.length)
    (hne : c' ≠ c) :
    ∀ r' ∈ (setCol t c v).rows, ∃ r ∈ t.rows,
      getCol (setCol t c v).cols r' c' = getCol t.cols r c' := by
  intro r' hr'
  unfold setCol at hr' ⊢
  by_cases hc : t.cols.contains c = true
  · simp only [hc, if_true] at hr' ⊢
    rcases List.mem_map.mp hr' with ⟨r, hr, rfl⟩
    refine ⟨r, hr, ?_⟩
    by_cases hm : t.cols.contains c' = true
    · rw [getCol_zipWith _ t.cols r c' (hW r hr) hm, if_neg hne]
    · have hm' : c' ∉ t.cols := by simpa using hm
      rw [getCol_not_mem _ _ hm', getCol_not_mem _ _ hm']
  · have hc' : t.cols.contains c = false := by simpa using hc
    simp only [hc', Bool.false_eq_true, if_false] at hr' ⊢
    rcases List.mem_map.mp hr' with ⟨r, hr, rfl⟩
    refine ⟨r, hr, ?_⟩
    rw [getCol_append_single t.cols r c v c' (hW r hr)]
    by_cases hm : c' ∈ t.cols
    · rw [if_pos hm]
    · rw [if_neg hm, if_neg (by
        simp only [beq_iff_eq]
        exact Ne.symm hne), getCol_not_mem _ _ hm]

theorem mem_tagTables {fetch : Int → Table} {t : Table}
    (ht : t ∈ tagTables fetch) :
    ∃ gp, gp ∈ GOIAS_MUNICIPALITIES ∧
      (fetch gp.1).rows.isEmpty = false ∧
      t = setCol (setCol (fetch gp.1) "municipio_nome" (Val.str gp.2))
        "municipio_geocodigo" (Val.num gp.1) := by
  rcases List.mem_filterMap.mp ht with ⟨gp, hgp, hf⟩
  by_cases hemp : (fetch gp.1).rows.isEmpty = true
  · rw [if_pos hemp] at hf
    simp at hf
  · rw [if_neg hemp] at hf
    exact ⟨gp, hgp, by simpa using hemp, (Option.some.inj hf).symm⟩

theorem tag_table_cells (fetch : Int → Table) (gp : Int × String)
    (hWg : ∀ row ∈ (fetch gp.1).rows,
      row.length = (fetch gp.1).cols.length) :
    ∀ row ∈ (setCol (setCol (fetch gp.1) "municipio_nome" (Val.str gp.2))
        "municipio_geocodigo" (Val.num gp.1)).rows,
      getCol (setCol (setCol (fetch gp.1) "municipio_nome" (Val.str gp.2))
          "municipio_geocodigo" (Val.num gp.1)).cols row
        "municipio_geocodigo" = Val.num gp.1 ∧
      getCol (setCol (setCol (fetch gp.1) "municipio_nome" (Val.str gp.2))
          "municipio_geocodigo" (Val.num gp.1)).cols row
        "municipio_nome" = Val.str gp.2 := by
  intro row hrow
  have hrectInner :=
    setCol_rect (fetch gp.1) "municipio_nome" (Val.str gp.2) hWg
  constructor
  · exact getCol_setCol_self _ _ _ hrectInner row hrow
  · rcases getCol_setCol_other
        (setCol (fetch gp.1) "municipio_nome" (Val.str gp.2))
        "municipio_geocodigo" "municipio_nome" (Val.num gp.1)
        hrectInner (by decide) row hrow with ⟨r, hr, heq⟩
    rw [heq]
    exact getCol_setCol_self _ _ _ hWg r hr

theorem concat_row_lookup (ts : List Table) (t : Table) (ht : t ∈ ts)
    (r : List Val) (c : String) (hc : c ∈ t.cols) :
    getCol (concatTables ts).cols
      (((ts.map (fun u => u.cols)).flatten).dedup.map
        (fun c' => getCol t.cols r c')) c = getCol t.cols r c := by
  have hcall : c ∈ ((ts.map (fun u => u.cols)).flatten).dedup :=
    List.mem_dedup.mpr
      (List.mem_flatten.mpr ⟨t.cols, List.mem_map.mpr ⟨t, ht, rfl⟩, hc⟩)
  exact getCol_map_self _ _ c hcall

theorem tagged_rows_length_sum (fetch : Int → Table) :
    ∀ L : List (Int × String),
      ((L.filterMap (fun gp =>
          if (fetch gp.1).rows.isEmpty then none
          else some (setCol
            (setCol (fetch gp.1) "municipio_nome" (Val.str gp.2))
            "municipio_geocodigo" (Val.num gp.1)))).map
        (fun t => t.rows.length)).sum =
      (L.map (fun gp => (fetch gp.1).rows.length)).sum := by
  intro L
  induction L with
  | nil => rfl
  | cons gp L ih =>
      by_cases hemp : (fetch gp.1).rows.isEmpty = true
      · have hnil : (fetch gp.1).rows = [] := List.isEmpty_iff.mp hemp
        rw [List.filterMap_cons_none (by
          show (if (fetch gp.1).rows.isEmpty then none else some _) = none
          rw [if_pos hemp])]
        rw [ih, List.map_cons, List.sum_cons, hnil]
        simp
      · rw [List.filterMap_cons_some (by
          show (if (fetch gp.1).rows.isEmpty then none else some _) =
            some (setCol (setCol (fetch gp.1) "municipio_nome"
              (Val.str gp.2)) "municipio_geocodigo" (Val.num gp.1))
          rw [if_neg hemp])]
        rw [List.map_cons, List.sum_cons, ih, List.map_cons, List.sum_cons,
          setCol_rows_length, setCol_rows_length]

/-- C10: every row of the consolidated state-wide table carries a
municipality geocode and a municipality name forming a pair of the
static municipality table; each municipality contributes exactly as many
rows as its own fetch returned (empty fetches contribute none), and when
every fetch is empty the consolidated table is the empty dataframe. -/
theorem c10_consolidated_table (fetch : Int → Table)
    (hW : ∀ gp ∈ GOIAS_MUNICIPALITIES, ∀ row ∈ (fetch gp.1).rows,
      row.length = (fetch gp.1).cols.length) :
    (∀ row ∈ (fetch_all_municipalities_data fetch).rows,
      ∃ g nm, (g, nm) ∈ GOIAS_MUNICIPALITIES ∧
        getCol (fetch_all_municipalities_data fetch).cols row
          "municipio_geocodigo" = Val.num g ∧
        getCol (fetch_all_municipalities_data fetch).cols row
          "municipio_nome" = Val.str nm) ∧
    (fetch_all_municipalities_data fetch).rows.length =
      (GOIAS_MUNICIPALITIES.map
        (fun gp => (fetch gp.1).rows.length)).sum ∧
    ((∀ gp ∈ GOIAS_MUNICIPALITIES, (fetch gp.1).rows = []) →
      fetch_all_municipalities_data fetch = emptyTable) := by
  refine ⟨?_, ?_, ?_⟩
  · intro row hrow
    by_cases htag : (tagTables fetch).isEmpty = true
    · have hfa : fetch_all_municipalities_data fetch = emptyTable := by
        simp [fetch_all_municipalities_data, htag]
      rw [hfa] at hrow
      exact absurd hrow (List.not_mem_nil row)
    · have hfa : fetch_all_municipalities_data fetch =
          concatTables (tagTables fetch) := by
        simp [fetch_all_municipalities_data, htag]
      rw [hfa] at hrow ⊢
      rcases List.mem_flatten.mp hrow with ⟨l, hl, hrl⟩
      rcases List.mem_map.mp hl with ⟨t, ht, rfl⟩
      rcases List.mem_map.mp hrl with ⟨r, hr, rfl⟩
      rcases mem_tagTables ht with ⟨gp, hgp, hempf, rfl⟩
      obtain ⟨g, nm⟩ := gp
      refine ⟨g, nm, hgp, ?_, ?_⟩
      · rw [concat_row_lookup _ _ ht r _ (setCol_mem_cols _ _ _)]
        exact (tag_table_cells fetch (g, nm) (hW (g, nm) hgp) r hr).1
      · rw [concat_row_lookup _ _ ht r _
          (setCol_mem_cols_of_mem _ _ _ _ (setCol_mem_cols _ _ _))]
        exact (tag_table_cells fetch (g, nm) (hW (g, nm) hgp) r hr).2
  · have hlen : (fetch_all_municipalities_data fetch).rows.length =
        ((tagTables fetch).map (fun t => t.rows.length)).sum := by
      by_cases htag : (tagTables fetch).isEmpty = true
      · have h1 : tagTables fetch = [] := List.isEmpty_iff.mp htag
        simp [fetch_all_municipalities_data, htag, h1, emptyTable]
      · have hfa : fetch_all_municipalities_data fetch =
            concatTables (tagTables fetch) := by
          simp [fetch_all_municipalities_data, htag]
        rw [hfa]
        show ((((tagTables fetch)).map _).flatten).length = _
        rw [List.length_flatten, List.map_map]
        apply congrArg
        apply List.map_congr_left
        intro t _
        simp
    rw [hlen]
    exact tagged_rows_length_sum fetch GOIAS_MUNICIPALITIES
  · intro hall
    have htag : tagTables fetch = [] := by
      apply List.filterMap_eq_nil_iff.mpr
      intro gp hgp
      have hempt : (fetch gp.1).rows.isEmpty = true :=
        List.isEmpty_iff.mpr (hall gp hgp)
      rw [if_pos hempt]
    simp [fetch_all_municipalities_data, htag]

/-- Witness for C10: Goiânia contributes one row and Anápolis two, every
other municipality none, so the consolidated table has three rows. -/
theorem c10_consolidated_table_witness :
    (∀ gp ∈ GOIAS_MUNICIPALITIES, ∀ row ∈ (c10Fetch gp.1).rows,
      row.length = (c10Fetch gp.1).cols.length) ∧
    (fetch_all_municipalities_data c10Fetch).rows.length =
      (GOIAS_MUNICIPALITIES.map
        (fun gp => (c10Fetch gp.1).rows.length)).sum ∧
    (GOIAS_MUNICIPALITIES.map
      (fun gp => (c10Fetch gp.1).rows.length)).sum = 3 :=
  ⟨by decide, (c10_consolidated_table c10Fetch (by decide)).2.1, by decide⟩
